import Mathlib

/-! # CreativeApp (`script.js`): a shallow embedding

The page script keeps all of its state in the DOM (class lists, inline styles,
listener registrations) and in browser timers.  The embedding below makes that
state explicit:

* class-list membership is a `Bool` per class that the script reads or writes;
* inline style properties are the values last assigned to them;
* a function object created by `.bind(this)` is a fresh natural number;
* time is a natural number of milliseconds and `setTimeout` inserts into a
  queue that is kept ordered by due time (first registered first on ties).
-/

namespace CreativeApp

/-! ## Configuration -/

/-- Numeric fields of `CreativeApp.config`. -/
structure Config where
  scrollThreshold : ℚ
  animationDelay : Nat
  typingSpeed : Nat

/-- The literal `config` object of the script. -/
def config : Config :=
  { scrollThreshold := 100, animationDelay := 200, typingSpeed := 100 }

/-! ## Mobile menu -/

/-- The part of the document that the mobile-menu functions read and write:
the `active` class of `.hamburger` and of `.nav-menu`, the `menu-open` class of
`body`, the `click` listeners registered on `document` (each one a function
object, named by a number), and the number the next function object gets. -/
structure MenuState where
  hamburgerActive : Bool
  navMenuActive : Bool
  bodyMenuOpen : Bool
  docClickListeners : List Nat
  nextFn : Nat
  deriving DecidableEq, Repr

/-- The page as loaded: no class set, no listener registered. -/
def MenuState.initial : MenuState :=
  { hamburgerActive := false, navMenuActive := false, bodyMenuOpen := false,
    docClickListeners := [], nextFn := 0 }

/-- What the handlers ask of the target of a click: `hamburger.contains(e.target)` and
`navMenu.contains(e.target)`. -/
structure ClickEvent where
  inHamburger : Bool
  inNavMenu : Bool
  deriving DecidableEq, Repr

/-- Call `document.addEventListener('click', f)`: a listener already present is not added again. -/
def addEventListener (ls : List Nat) (f : Nat) : List Nat :=
  if f ∈ ls then ls else ls ++ [f]

/-- Call `document.removeEventListener('click', f)`: removes the registration of this very
function object, if there is one. -/
def removeEventListener (ls : List Nat) (f : Nat) : List Nat :=
  ls.erase f

/-- Method `toggleMobileMenu()`. -/
def toggleMobileMenu (s : MenuState) : MenuState :=
  let s1 : MenuState :=
    { s with hamburgerActive := !s.hamburgerActive,
             navMenuActive := !s.navMenuActive,
             bodyMenuOpen := !s.bodyMenuOpen }
  if s1.navMenuActive then
    -- `this.closeMobileMenuOutside.bind(this)` is a new function object
    { s1 with docClickListeners := addEventListener s1.docClickListeners s1.nextFn,
              nextFn := s1.nextFn + 1 }
  else s1

/-- Method `closeMobileMenuOutside(e)`. -/
def closeMobileMenuOutside (e : ClickEvent) (s : MenuState) : MenuState :=
  if !e.inHamburger && !e.inNavMenu then
    -- the argument of `removeEventListener` is again a new function object
    { s with hamburgerActive := false,
             navMenuActive := false,
             bodyMenuOpen := false,
             docClickListeners := removeEventListener s.docClickListeners s.nextFn,
             nextFn := s.nextFn + 1 }
  else s

/-- Method `closeMobileMenu()`. -/
def closeMobileMenu (s : MenuState) : MenuState :=
  { s with hamburgerActive := false, navMenuActive := false, bodyMenuOpen := false }

/-- A click that reaches `document`: every listener registered there when the
dispatch starts is called; each is a bound `closeMobileMenuOutside`. -/
def documentClick (e : ClickEvent) (s : MenuState) : MenuState :=
  s.docClickListeners.foldl (fun acc _ => closeMobileMenuOutside e acc) s

/-- The `keydown` listener of `initKeyboardNavigation`, as far as the menu goes:
`Escape` closes the menu, `Home` and `End` only scroll the window. -/
def keydown (key : String) (s : MenuState) : MenuState :=
  if key = "Escape" then closeMobileMenu s else s

/-! ## Scroll-driven elements -/

/-- The header: inline `background` and `boxShadow`, and the `scrolled` class. -/
structure Header where
  background : String
  boxShadow : String
  scrolled : Bool
  deriving DecidableEq, Repr

/-- Method `updateHeaderStyle(scrollY)`. -/
def updateHeaderStyle (cfg : Config) (scrollY : ℚ) (_header : Header) : Header :=
  if scrollY > cfg.scrollThreshold then
    { background := "rgba(255, 255, 255, 0.98)",
      boxShadow := "0 2px 20px rgba(0, 0, 0, 0.1)",
      scrolled := true }
  else
    { background := "rgba(255, 255, 255, 0.95)",
      boxShadow := "none",
      scrolled := false }

/-- The back-to-top button: its `show` class. -/
structure BackToTop where
  showClass : Bool
  deriving DecidableEq, Repr

/-- Method `updateBackToTopButton(scrollY)`. -/
def updateBackToTopButton (scrollY : ℚ) (_btn : BackToTop) : BackToTop :=
  if scrollY > 300 then { showClass := true } else { showClass := false }

/-- An element matched by `.animate-on-scroll`: its `animated` class and the `top`
and `bottom` of its bounding rectangle. -/
structure ScrollElem where
  animated : Bool
  top : ℚ
  bottom : ℚ
  deriving DecidableEq, Repr

/-- Method `triggerScrollAnimations()`: every `.animate-on-scroll:not(.animated)` element
that overlaps the viewport receives the class `animated`. -/
def triggerScrollAnimations (innerHeight : ℚ) (els : List ScrollElem) : List ScrollElem :=
  els.map fun el =>
    if !el.animated && (decide (el.top < innerHeight) && decide (el.bottom > 0)) then
      { el with animated := true }
    else el

/-- What `handleResize` reads and writes: the menu, the window size and the
`.animate-on-scroll` elements. -/
structure ResizeView where
  menu : MenuState
  innerWidth : Nat
  innerHeight : Nat
  animateOnScroll : List ScrollElem
  deriving DecidableEq, Repr

/-- Method `handleResize()`. -/
def handleResize (v : ResizeView) : ResizeView :=
  let v1 := if v.innerWidth > 768 then { v with menu := closeMobileMenu v.menu } else v
  { v1 with animateOnScroll := triggerScrollAnimations v1.innerHeight v1.animateOnScroll }

/-- The window is resized to `w` by `h` and the `resize` listener runs. -/
def resizeTo (w h : Nat) (v : ResizeView) : ResizeView :=
  handleResize { v with innerWidth := w, innerHeight := h }

/-! ## JavaScript numbers

A finite `Number` is the rational it denotes.  Arithmetic rounds as IEEE 754
binary64 does: 53 significant bits, to nearest, ties to even.  The exponent range
is not bounded, and the two zeros are not told apart (the script only prints
them); every quantity below stays far inside the range of a binary64. -/

/-- Binary logarithm of a positive natural number, rounded down (fuel version). -/
def natLog2Fuel : Nat → Nat → Nat
  | 0, _ => 0
  | fuel + 1, n => if n < 2 then 0 else natLog2Fuel fuel (n / 2) + 1

/-- Binary logarithm of a positive natural number, rounded down. -/
def natLog2 (n : Nat) : Nat := natLog2Fuel n n

/-- The rational `2 ^ e`. -/
def pow2 : Int → ℚ
  | Int.ofNat n => ((2 ^ n : Nat) : ℚ)
  | Int.negSucc n => 1 / ((2 ^ (n + 1) : Nat) : ℚ)

/-- Binary exponent of a positive rational `x`: the `e` with `2 ^ e ≤ x < 2 ^ (e + 1)`. -/
def ilog2 (x : ℚ) : Int :=
  let e0 : Int := (natLog2 x.num.natAbs : Int) - (natLog2 x.den : Int)
  if pow2 e0 ≤ x then e0 else e0 - 1

/-- Nearest integer, ties to the even one. -/
def roundHalfEven (m : ℚ) : Int :=
  let f := ⌊m⌋
  let r := m - f
  if r < 1 / 2 then f
  else if 1 / 2 < r then f + 1
  else if f % 2 = 0 then f else f + 1

/-- Rounding of a positive rational to 53 significant bits. -/
def rndPos (x : ℚ) : ℚ :=
  let ulp := pow2 (ilog2 x - 52)
  (roundHalfEven (x / ulp) : ℚ) * ulp

/-- Rounding of a rational to the nearest binary64 value. -/
def rnd (x : ℚ) : ℚ :=
  if x = 0 then 0 else if 0 < x then rndPos x else - rndPos (-x)

/-- A JavaScript `Number`. -/
inductive JSNum where
  | nan
  | posInf
  | negInf
  | fin (q : ℚ)
  deriving DecidableEq, Repr

/-- The operator `/` on numbers. -/
def JSNum.div : JSNum → JSNum → JSNum
  | .nan, _ => .nan
  | _, .nan => .nan
  | .fin a, .fin b =>
    if b = 0 then (if a = 0 then .nan else if 0 < a then .posInf else .negInf)
    else .fin (rnd (a / b))
  | .fin _, _ => .fin 0
  | .posInf, .fin b => if 0 ≤ b then .posInf else .negInf
  | .negInf, .fin b => if 0 ≤ b then .negInf else .posInf
  | _, _ => .nan

/-- The operator `*` on numbers. -/
def JSNum.mul : JSNum → JSNum → JSNum
  | .nan, _ => .nan
  | _, .nan => .nan
  | .fin a, .fin b => .fin (rnd (a * b))
  | .fin a, .posInf => if a = 0 then .nan else if 0 < a then .posInf else .negInf
  | .fin a, .negInf => if a = 0 then .nan else if 0 < a then .negInf else .posInf
  | .posInf, .fin b => if b = 0 then .nan else if 0 < b then .posInf else .negInf
  | .negInf, .fin b => if b = 0 then .nan else if 0 < b then .negInf else .posInf
  | .posInf, .posInf => .posInf
  | .negInf, .negInf => .posInf
  | _, _ => .negInf

/-- The function `Math.min` on two numbers. -/
def JSNum.min : JSNum → JSNum → JSNum
  | .nan, _ => .nan
  | _, .nan => .nan
  | .negInf, _ => .negInf
  | _, .negInf => .negInf
  | .posInf, y => y
  | x, .posInf => x
  | .fin a, .fin b => if a ≤ b then .fin a else .fin b

/-- The scroll progress bar created by `createProgressBar`: the percentage last
assigned to `style.width` (`n + '%'`). -/
structure ProgressBar where
  widthPercent : JSNum
  deriving DecidableEq, Repr

/-- The value `Math.min(scrollProgress, 100)` that `updateProgressBar` computes from
`scrollY`, `document.documentElement.scrollHeight` and `window.innerHeight`. -/
def scrollProgressValue (scrollY : ℚ) (scrollHeight innerHeight : Int) : JSNum :=
  let documentHeight : ℚ := ((scrollHeight - innerHeight : Int) : ℚ)
  let scrollProgress := JSNum.mul (JSNum.div (.fin scrollY) (.fin documentHeight)) (.fin 100)
  JSNum.min scrollProgress (.fin 100)

/-- Method `updateProgressBar(scrollY)`; `none` is a missing `this.progressBar`. -/
def updateProgressBar (scrollY : ℚ) (scrollHeight innerHeight : Int) :
    Option ProgressBar → Option ProgressBar
  | none => none
  | some _ => some { widthPercent := scrollProgressValue scrollY scrollHeight innerHeight }

/-! ## Counters -/

/-- The state of one `animateCounter` call: the local `current`, the element's
`textContent`, and whether the interval is still set. -/
structure Counter where
  current : ℚ
  textContent : String
  running : Bool
  deriving DecidableEq, Repr

/-- State right after `animateCounter(element, target, suffix)` returns: `current = 0`,
interval set, text of the element as it was. -/
def animateCounter (textContent : String) : Counter :=
  { current := 0, textContent := textContent, running := true }

/-- One run of the interval callback of `animateCounter`. -/
def counterTick (target : Nat) (suffix : String) (c : Counter) : Counter :=
  let increment := rnd ((target : ℚ) / 100)
  let current := rnd (c.current + increment)
  if current ≥ (target : ℚ) then
    { current := current, textContent := toString target ++ suffix, running := false }
  else
    { current := current, textContent := toString ⌊current⌋ ++ suffix, running := true }

/-- The interval fires `n` times, 30 ms apart; a cleared interval no longer runs. -/
def runCounter (target : Nat) (suffix : String) : Nat → Counter → Counter
  | 0, c => c
  | n + 1, c =>
    if c.running then runCounter target suffix n (counterTick target suffix c) else c

/-- Time in ms, counted from the `animateCounter` call, of the `k`-th run of the
interval callback. -/
def counterTickTime (k : Nat) : Nat := 30 * k

/-! ## Timers -/

/-- A pending `setTimeout`: when it is due and which callback it runs. -/
structure Timer (α : Type) where
  due : Nat
  callback : α
  deriving DecidableEq, Repr

/-- Queue insertion: after every timer that is due no later. -/
def insertTimer {α : Type} (t : Timer α) : List (Timer α) → List (Timer α)
  | [] => [t]
  | x :: xs => if x.due ≤ t.due then x :: insertTimer t xs else t :: x :: xs

/-- The clock, the timer queue and the state the callbacks work on. -/
structure EventLoop (σ α : Type) where
  now : Nat
  timers : List (Timer α)
  page : σ
  deriving DecidableEq, Repr

/-- Call `setTimeout(callback, delay)`. -/
def setTimeout {σ α : Type} (callback : α) (delay : Nat) (l : EventLoop σ α) : EventLoop σ α :=
  { l with timers := insertTimer { due := l.now + delay, callback := callback } l.timers }

/-- Let time pass until `t`: the timers due by then run in queue order, each at its
due time, with `run` as the meaning of a callback. -/
def advanceFuel {σ α : Type} (run : α → EventLoop σ α → EventLoop σ α) :
    Nat → Nat → EventLoop σ α → EventLoop σ α
  | 0, _, l => l
  | fuel + 1, t, l =>
    match l.timers with
    | [] => { l with now := max l.now t }
    | x :: rest =>
      if x.due ≤ t then
        advanceFuel run fuel t
          (run x.callback { l with now := max l.now x.due, timers := rest })
      else { l with now := max l.now t }

/-- Apply `f` to the element at index `i`, if there is one. -/
def modifyAt {β : Type} (f : β → β) : Nat → List β → List β
  | _, [] => []
  | 0, x :: xs => f x :: xs
  | i + 1, x :: xs => x :: modifyAt f i xs

/-! ## Notifications -/

/-- A notification element: class name, the colour taken from `colors[type]`
(`none` for `undefined`), text, inline `transform`, and whether it is in the document. -/
structure Notification where
  className : String
  background : Option String
  textContent : String
  transform : String
  attached : Bool
  deriving DecidableEq, Repr

/-- The three timer callbacks of `showNotification`, each closed over its element. -/
inductive NotifCallback where
  | slideIn (id : Nat)
  | slideOut (id : Nat)
  | remove (id : Nat)
  deriving DecidableEq, Repr

/-- The element a callback is closed over. -/
def NotifCallback.id : NotifCallback → Nat
  | .slideIn i => i
  | .slideOut i => i
  | .remove i => i

/-- Every notification element created so far, by creation order, with the timers. -/
abbrev NotifLoop := EventLoop (List Notification) NotifCallback

/-- The `colors` table of `showNotification`. -/
def colors (type : String) : Option String :=
  if type = "success" then some "#22c55e"
  else if type = "error" then some "#ef4444"
  else if type = "info" then some "#3b82f6"
  else if type = "warning" then some "#f59e0b"
  else none

/-- Method `showNotification(message, type)`. -/
def showNotification (message type : String) (l : NotifLoop) : NotifLoop :=
  let id := l.page.length
  let notification : Notification :=
    { className := "notification notification-" ++ type,
      background := colors type,
      textContent := message,
      transform := "translateX(400px)",
      attached := true }
  let l1 : NotifLoop := { l with page := l.page ++ [notification] }
  let l2 := setTimeout (NotifCallback.slideIn id) 100 l1
  setTimeout (NotifCallback.slideOut id) 4000 l2

/-- What each timer callback of `showNotification` does when it runs. -/
def runNotif : NotifCallback → NotifLoop → NotifLoop
  | .slideIn id, l =>
    { l with page := modifyAt (fun n => { n with transform := "translateX(0)" }) id l.page }
  | .slideOut id, l =>
    setTimeout (NotifCallback.remove id) 300
      { l with page := modifyAt (fun n => { n with transform := "translateX(400px)" }) id l.page }
  | .remove id, l =>
    { l with page := modifyAt (fun n => { n with attached := false }) id l.page }

/-- Let time pass until `t` on a page with notifications.  A queue of `k` timers
runs at most `2 * k` callbacks: only `slideOut` sets a timer, and that one sets none. -/
def advanceNotif (t : Nat) (l : NotifLoop) : NotifLoop :=
  advanceFuel runNotif (2 * l.timers.length + 1) t l

/-- A page without notifications and without timers at time `t`. -/
def NotifLoop.fresh (t : Nat) : NotifLoop :=
  { now := t, timers := [], page := [] }

/-- A `showNotification` call: how long after the previous call (or after the start)
it is made, and its two arguments. -/
structure NotifCall where
  gap : Nat
  message : String
  type : String
  deriving DecidableEq, Repr

/-- Time passes and the calls are made one after the other. -/
def runCalls : List NotifCall → NotifLoop → NotifLoop
  | [], l => l
  | c :: cs, l =>
    runCalls cs (showNotification c.message c.type (advanceNotif (l.now + c.gap) l))

/-- The times at which the calls are made, the first gap counted from `t0`. -/
def callTimes : Nat → List NotifCall → List Nat
  | _, [] => []
  | t0, c :: cs => (t0 + c.gap) :: callTimes (t0 + c.gap) cs

/-! ## Typing effect -/

/-- The hero title: its text (a list of code units) and inline `borderRight`. -/
structure HeroTitle where
  textContent : List Char
  borderRight : String
  deriving DecidableEq, Repr

/-- Call `text.split(sep)` for a one-character separator. -/
def split (sep : Char) : List Char → List (List Char)
  | [] => [[]]
  | c :: cs =>
    if c = sep then [] :: split sep cs
    else
      match split sep cs with
      | [] => [[c]]
      | w :: ws => (c :: w) :: ws

/-- The variables `initTypingEffect` closes over, and the title. -/
structure TypingState where
  heroTitle : HeroTitle
  words : List (List Char)
  wordIndex : Nat
  charIndex : Nat
  deriving DecidableEq, Repr

/-- The two timer callbacks of `initTypingEffect`. -/
inductive TypingCallback where
  | typeWord
  | removeCursor
  deriving DecidableEq, Repr

/-- The typing state with its timers. -/
abbrev TypingLoop := EventLoop TypingState TypingCallback

/-- Method `initTypingEffect()` called at time `now`; without a `.hero h1` it returns at once. -/
def initTypingEffect (now : Nat) : Option HeroTitle → Option TypingLoop
  | none => none
  | some heroTitle =>
    let originalText := heroTitle.textContent
    let l : TypingLoop :=
      { now := now, timers := [],
        page := { heroTitle := { textContent := [], borderRight := "2px solid white" },
                  words := split ' ' originalText,
                  wordIndex := 0,
                  charIndex := 0 } }
    some (setTimeout TypingCallback.typeWord 2000 l)

/-- The closure `typeWord`. -/
def typeWord (cfg : Config) (l : TypingLoop) : TypingLoop :=
  let s := l.page
  if s.wordIndex < s.words.length then
    let word := s.words.getD s.wordIndex []
    if s.charIndex < word.length then
      setTimeout TypingCallback.typeWord cfg.typingSpeed
        { l with page :=
            { s with heroTitle := { s.heroTitle with
                       textContent := s.heroTitle.textContent ++ (word.drop s.charIndex).take 1 },
                     charIndex := s.charIndex + 1 } }
    else
      setTimeout TypingCallback.typeWord (cfg.typingSpeed * 2)
        { l with page :=
            { s with heroTitle := { s.heroTitle with
                       textContent := s.heroTitle.textContent ++ [' '] },
                     wordIndex := s.wordIndex + 1,
                     charIndex := 0 } }
  else
    setTimeout TypingCallback.removeCursor 1000 l

/-- What each timer callback of `initTypingEffect` does when it runs. -/
def runTyping (cfg : Config) : TypingCallback → TypingLoop → TypingLoop
  | .typeWord, l => typeWord cfg l
  | .removeCursor, l =>
    { l with page := { l.page with heroTitle := { l.page.heroTitle with borderRight := "none" } } }

/-- Number of timer callbacks that can still run: one per character and one per word
left, the last `typeWord`, and the cursor removal. -/
def typingFuel (s : TypingState) : Nat :=
  ((s.words.drop s.wordIndex).map (fun w => w.length + 1)).sum + 2

/-- Let time pass until `t` while the typing effect runs. -/
def advanceTyping (cfg : Config) (t : Nat) (l : TypingLoop) : TypingLoop :=
  advanceFuel (runTyping cfg) (typingFuel l.page + 1) t l


/-! ## Vocabulary of the statements -/

/-- The menu is open: the three classes are set. -/
def MenuState.isOpen (s : MenuState) : Prop :=
  s.hamburgerActive = true ∧ s.navMenuActive = true ∧ s.bodyMenuOpen = true

/-- The menu is closed: none of the three classes is set. -/
def MenuState.isClosed (s : MenuState) : Prop :=
  s.hamburgerActive = false ∧ s.navMenuActive = false ∧ s.bodyMenuOpen = false

instance (s : MenuState) : Decidable s.isOpen := by
  unfold MenuState.isOpen; infer_instance

instance (s : MenuState) : Decidable s.isClosed := by
  unfold MenuState.isClosed; infer_instance

/-- A click whose target is neither in the hamburger nor in the menu. -/
def outsideClick : ClickEvent := { inHamburger := false, inNavMenu := false }

/-- The four ways out of the open state. -/
inductive ExitPath where
  | toggle
  | outsideClick
  | escape
  | resize
  deriving DecidableEq, Repr

/-- Leave the open state by the given path; the resize is one to width 900. -/
def closeVia : ExitPath → ResizeView → ResizeView
  | .toggle, v => { v with menu := toggleMobileMenu v.menu }
  | .outsideClick, v => { v with menu := documentClick outsideClick v.menu }
  | .escape, v => { v with menu := keydown "Escape" v.menu }
  | .resize, v => resizeTo 900 v.innerHeight v

/-- One repetition: open with the hamburger, close by the given path. -/
def openClose (p : ExitPath) (v : ResizeView) : ResizeView :=
  closeVia p { v with menu := toggleMobileMenu v.menu }

/-- Repetitions of open and close, one per listed exit path. -/
def cycles (ps : List ExitPath) (v : ResizeView) : ResizeView :=
  ps.foldl (fun acc p => openClose p acc) v

/-- A narrow window showing the page as loaded. -/
def ResizeView.initial : ResizeView :=
  { menu := MenuState.initial, innerWidth := 375, innerHeight := 667, animateOnScroll := [] }

/-- Every registered listener is an already allocated function object. -/
def MenuState.listenersBelow (s : MenuState) : Prop :=
  ∀ f ∈ s.docClickListeners, f < s.nextFn

/-! ## Vocabulary of the notification statements -/

/-- The element `showNotification` creates for a call, with the given `transform` and
attachment. -/
def baseNotification (c : NotifCall) (transform : String) (attached : Bool) : Notification :=
  { className := "notification notification-" ++ c.type,
    background := colors c.type,
    textContent := c.message,
    transform := transform,
    attached := attached }

/-- The state, at time `now`, of the element of a call made at time `created`, were it
alone on the page: slid in from `created + 100` on, slid out from `created + 4000` on,
removed from `created + 4300` on. -/
def expectedNotification (now : Nat) (c : NotifCall) (created : Nat) : Notification :=
  baseNotification c
    (if created + 100 ≤ now ∧ now < created + 4000 then "translateX(0)" else "translateX(400px)")
    (decide (now < created + 4300))

/-- The pending timers that are closed over element `i`. -/
def timersOf (i : Nat) (ts : List (Timer NotifCallback)) : List (Timer NotifCallback) :=
  ts.filter (fun x => decide (x.callback.id = i))

/-- Where element `i`, created at `t` by call `c`, stands: which of its timers are pending
and what the element looks like. -/
def NotifPhase (ts : List (Timer NotifCallback)) (now i : Nat) (c : NotifCall) (t : Nat)
    (n : Notification) : Prop :=
  (List.Perm (timersOf i ts)
      [{ due := t + 100, callback := NotifCallback.slideIn i },
       { due := t + 4000, callback := NotifCallback.slideOut i }] ∧
    n = baseNotification c "translateX(400px)" true ∧ t ≤ now) ∨
  (List.Perm (timersOf i ts) [{ due := t + 4000, callback := NotifCallback.slideOut i }] ∧
    n = baseNotification c "translateX(0)" true ∧ t + 100 ≤ now) ∨
  (List.Perm (timersOf i ts) [{ due := t + 4300, callback := NotifCallback.remove i }] ∧
    n = baseNotification c "translateX(400px)" true ∧ t + 4000 ≤ now) ∨
  (timersOf i ts = [] ∧
    n = baseNotification c "translateX(400px)" false ∧ t + 4300 ≤ now)

/-- Invariant of a page whose notifications were created by the calls `es` (each with the
time it was made). -/
structure NotifInv (l : NotifLoop) (es : List (NotifCall × Nat)) : Prop where
  len : l.page.length = es.length
  sorted : l.timers.Pairwise (fun a b => a.due ≤ b.due)
  due_ge : ∀ x ∈ l.timers, l.now ≤ x.due
  ids : ∀ x ∈ l.timers, x.callback.id < l.page.length
  phase : ∀ i c t, es[i]? = some (c, t) →
    ∃ n, l.page[i]? = some n ∧ NotifPhase l.timers l.now i c t n

/-- How many callbacks a pending timer can still cause to run. -/
def notifWeight (x : Timer NotifCallback) : Nat :=
  match x.callback with
  | .slideOut _ => 2
  | _ => 1

/-- Bound on the number of callbacks that the pending timers can still cause to run. -/
def notifMeasure (ts : List (Timer NotifCallback)) : Nat :=
  (ts.map notifWeight).sum

/-- The calls paired with the times at which they are made. -/
def callsWithTimes (t0 : Nat) (cs : List NotifCall) : List (NotifCall × Nat) :=
  cs.zip (callTimes t0 cs)

/-- The calls are made, the first gap counted from `t0`, and then `wait` more ms pass. -/
def runAndWait (t0 : Nat) (cs : List NotifCall) (wait : Nat) : NotifLoop :=
  advanceNotif ((runCalls cs (NotifLoop.fresh t0)).now + wait) (runCalls cs (NotifLoop.fresh t0))

/-! ## Vocabulary of the typing statements -/

/-- The title text shown `elapsed` ms after `initTypingEffect()` was called at time `t0`. -/
def typedText (cfg : Config) (title : HeroTitle) (t0 elapsed : Nat) : Option (List Char) :=
  (initTypingEffect t0 (some title)).map fun l =>
    (advanceTyping cfg (t0 + elapsed) l).page.heroTitle.textContent

/-- The first word of the title. -/
def firstWord (title : HeroTitle) : List Char :=
  (split ' ' title.textContent).getD 0 []

/-! ## Vocabulary of the counter statements -/

/-- The value of `current` after `k` runs of the interval callback, as long as the
interval has not been cleared. -/
def counterValue (target : Nat) : Nat → ℚ
  | 0 => 0
  | k + 1 => rnd (counterValue target k + rnd ((target : ℚ) / 100))

/-! ## Vocabulary of the menu-flag statements -/

/-- What can happen to the mobile menu: a call of one of the three functions, a click that
reaches `document`, a key press, a resize of the window. -/
inductive MenuEvent where
  | toggle
  | outsideHandler (e : ClickEvent)
  | click (e : ClickEvent)
  | close
  | key (name : String)
  | resize (w h : Nat)
  deriving DecidableEq, Repr

/-- The effect of one event. -/
def MenuEvent.apply : MenuEvent → ResizeView → ResizeView
  | .toggle, v => { v with menu := toggleMobileMenu v.menu }
  | .outsideHandler e, v => { v with menu := closeMobileMenuOutside e v.menu }
  | .click e, v => { v with menu := documentClick e v.menu }
  | .close, v => { v with menu := closeMobileMenu v.menu }
  | .key name, v => { v with menu := keydown name v.menu }
  | .resize w h, v => resizeTo w h v

/-- The state reached from the page as loaded by a sequence of events. -/
def menuAfter (events : List MenuEvent) : ResizeView :=
  events.foldl (fun v e => e.apply v) ResizeView.initial

/-- The three flags agree: all set or all clear. -/
def MenuState.inSync (s : MenuState) : Prop :=
  s.isOpen ∨ s.isClosed

/-! ## Scroll handler -/

/-- The inline `transform` of the hero section: either what `handleParallaxEffect` wrote,
`translateY(<px>px)`, or some other value. -/
inductive HeroTransform where
  | css (value : String)
  | translateY (px : ℚ)
  deriving DecidableEq, Repr

/-- The hero section. -/
structure Hero where
  transform : HeroTransform
  deriving DecidableEq, Repr

/-- Method `handleParallaxEffect(scrollY)`; `none` is a missing `.hero`. -/
def handleParallaxEffect (scrollY : ℚ) (innerHeight : Int) : Option Hero → Option Hero
  | none => none
  | some hero =>
    if scrollY < (innerHeight : ℚ) then
      let rate := rnd (scrollY * (-(1 / 2)))
      some { hero with transform := HeroTransform.translateY rate }
    else some hero

/-- What `handleScroll` reads and writes. -/
structure ScrollView where
  header : Header
  backToTopBtn : BackToTop
  progressBar : Option ProgressBar
  hero : Option Hero
  scrollHeight : Int
  innerHeight : Int
  animateOnScroll : List ScrollElem
  deriving DecidableEq, Repr

/-- The four updates that `handleScroll` makes from `scrollY`, in its order. -/
def scrollUpdates (cfg : Config) (scrollY : ℚ) (v : ScrollView) : ScrollView :=
  let v1 := { v with header := updateHeaderStyle cfg scrollY v.header }
  let v2 := { v1 with backToTopBtn := updateBackToTopButton scrollY v1.backToTopBtn }
  let v3 := { v2 with progressBar :=
                updateProgressBar scrollY v2.scrollHeight v2.innerHeight v2.progressBar }
  { v3 with hero := handleParallaxEffect scrollY v3.innerHeight v3.hero }

/-- Method `handleScroll()` with `window.pageYOffset = scrollY`. -/
def handleScroll (cfg : Config) (scrollY : ℚ) (v : ScrollView) : ScrollView :=
  let v1 := scrollUpdates cfg scrollY v
  { v1 with animateOnScroll := triggerScrollAnimations v1.innerHeight v1.animateOnScroll }

/-! ## Window listeners and teardown -/

/-- The methods of `CreativeApp` that are registered on `window`. -/
inductive Method where
  | handleScroll
  | handleResize
  | handlePageLoad
  | handleError
  deriving DecidableEq, Repr

/-- A function object: the method itself (the value of `this.m`, the same object at every
read), the result of one `this.m.bind(this)`, or the wrapper returned by one call of
`this.throttle(func, limit)`.  Results of `bind` and `throttle` are new objects, told apart
by a number. -/
inductive Fn where
  | method (m : Method)
  | bound (m : Method) (id : Nat)
  | throttled (func : Fn) (limit : Nat) (id : Nat)
  deriving DecidableEq, Repr

/-- The method that runs when the function object is called (for a throttle wrapper: when
it is called outside its throttle window). -/
def Fn.runs : Fn → Method
  | .method m => m
  | .bound m _ => m
  | .throttled func _ _ => func.runs

/-- What `bindEvents` and `destroy` work on: the listeners registered on `window` (event
type and function object), the number the next function object gets, and, when they exist,
whether the scroll observer is connected and whether the progress bar and the cursor are
in the document. -/
structure AppState where
  windowListeners : List (String × Fn)
  nextFn : Nat
  scrollObserver : Option Bool
  progressBar : Option Bool
  cursor : Option Bool
  deriving DecidableEq, Repr

/-- Call `window.addEventListener(type, f)`: a registration already present is not
repeated. -/
def windowAddEventListener (type : String) (f : Fn) (ls : List (String × Fn)) :
    List (String × Fn) :=
  if (type, f) ∈ ls then ls else ls ++ [(type, f)]

/-- Call `window.removeEventListener(type, f)`: removes the registration of this very
function object for this type, if there is one. -/
def windowRemoveEventListener (type : String) (f : Fn) (ls : List (String × Fn)) :
    List (String × Fn) :=
  ls.erase (type, f)

/-- The registrations that `bindEvents()` makes on `window`: `scroll` and `resize` with
throttled bound handlers, `load` and `error` with bound handlers. -/
def bindEvents (s : AppState) : AppState :=
  let n := s.nextFn
  let onScroll := Fn.throttled (Fn.bound Method.handleScroll n) 16 (n + 1)
  let onResize := Fn.throttled (Fn.bound Method.handleResize (n + 2)) 250 (n + 3)
  let onLoad := Fn.bound Method.handlePageLoad (n + 4)
  let onError := Fn.bound Method.handleError (n + 5)
  { s with
    windowListeners :=
      windowAddEventListener "error" onError
        (windowAddEventListener "load" onLoad
          (windowAddEventListener "resize" onResize
            (windowAddEventListener "scroll" onScroll s.windowListeners))),
    nextFn := n + 6 }

/-- Method `destroy()`. -/
def destroy (s : AppState) : AppState :=
  { s with
    windowListeners :=
      windowRemoveEventListener "resize" (Fn.method Method.handleResize)
        (windowRemoveEventListener "scroll" (Fn.method Method.handleScroll) s.windowListeners),
    scrollObserver := s.scrollObserver.map (fun _ => false),
    progressBar := s.progressBar.map (fun _ => false),
    cursor := s.cursor.map (fun _ => false) }

/-- The methods that run when an event of the given type reaches `window`. -/
def dispatchWindow (type : String) (s : AppState) : List Method :=
  (s.windowListeners.filter (fun l => l.1 = type)).map (fun l => l.2.runs)

/-- The application before `bindEvents`: nothing registered on `window`; observer, progress
bar and cursor as `initAnimations` and `initComponents` leave them. -/
def AppState.initial (nextFn : Nat) : AppState :=
  { windowListeners := [], nextFn := nextFn,
    scrollObserver := some true, progressBar := some true, cursor := some true }

/-! ## Scroll observer -/

/-- An element observed by `scrollObserver`: the classes `service-card`, `portfolio-item`
and `animated` of its class list. -/
structure ObservedElem where
  serviceCard : Bool
  portfolioItem : Bool
  animated : Bool
  deriving DecidableEq, Repr

/-- An `IntersectionObserverEntry`: the observed element (by its position among the
observed elements) and `isIntersecting`. -/
structure IntersectionEntry where
  target : Nat
  isIntersecting : Bool
  deriving DecidableEq, Repr

/-- A call of one of the two reveal functions, with the element it is given. -/
inductive RevealCall where
  | animateServiceCard (target : Nat)
  | animatePortfolioItem (target : Nat)
  deriving DecidableEq, Repr

/-- The observed elements and the reveal calls made so far, oldest first. -/
structure ObserverState where
  elements : List ObservedElem
  calls : List RevealCall
  deriving DecidableEq, Repr

/-- The body of `entries.forEach` in the callback of `createScrollObserver`. -/
def handleEntry (s : ObserverState) (entry : IntersectionEntry) : ObserverState :=
  if entry.isIntersecting then
    let s1 : ObserverState :=
      { s with elements := modifyAt (fun el => { el with animated := true }) entry.target
                             s.elements }
    let classes := s1.elements.getD entry.target
      { serviceCard := false, portfolioItem := false, animated := false }
    let s2 : ObserverState :=
      if classes.serviceCard then
        { s1 with calls := s1.calls ++ [RevealCall.animateServiceCard entry.target] }
      else s1
    if classes.portfolioItem then
      { s2 with calls := s2.calls ++ [RevealCall.animatePortfolioItem entry.target] }
    else s2
  else s

/-- The callback of `createScrollObserver`, called with a batch of entries. -/
def observerCallback (entries : List IntersectionEntry) (s : ObserverState) : ObserverState :=
  entries.foldl handleEntry s

/-- A sequence of callbacks, one per batch of entries. -/
def runObserver (batches : List (List IntersectionEntry)) (s : ObserverState) :
    ObserverState :=
  batches.foldl (fun acc entries => observerCallback entries acc) s

/-- The state after `createScrollObserver()` has started to observe the elements. -/
def createScrollObserver (elements : List ObservedElem) : ObserverState :=
  { elements := elements, calls := [] }

/-- Number of times the entries report the element as intersecting. -/
def intersections (target : Nat) (batches : List (List IntersectionEntry)) : Nat :=
  (batches.flatten.filter (fun e => e.isIntersecting && e.target = target)).length

/-! ## Running timers to the end -/

/-- Run the pending timers in queue order, each at its due time, until none is left, and
record which callbacks ran. -/
def drainFuel {σ α : Type} (run : α → EventLoop σ α → EventLoop σ α) :
    Nat → EventLoop σ α → EventLoop σ α × List α
  | 0, l => (l, [])
  | fuel + 1, l =>
    match l.timers with
    | [] => (l, [])
    | x :: rest =>
      let r := drainFuel run fuel
        (run x.callback { l with now := max l.now x.due, timers := rest })
      (r.1, x.callback :: r.2)

/-- The typing effect from `initTypingEffect()` at time `t0` until no timer is left: the
final state and the callbacks that ran, in order. -/
def typingRun (cfg : Config) (title : HeroTitle) (t0 : Nat) :
    Option (TypingLoop × List TypingCallback) :=
  (initTypingEffect t0 (some title)).map fun l =>
    drainFuel (runTyping cfg) (typingFuel l.page) l

/-- The text still to be typed from word `i`, character `j` on: the rest of that word and
every later word, each followed by a space. -/
def remainingText (ws : List (List Char)) (i j : Nat) : List Char :=
  match ws.drop i with
  | [] => []
  | w :: rest => w.drop j ++ [' '] ++ (rest.map (fun v => v ++ [' '])).flatten

/-- The number of `typeWord` steps that still append something from word `i`, character
`j` on. -/
def remainingSteps (ws : List (List Char)) (i j : Nat) : Nat :=
  match ws.drop i with
  | [] => 0
  | w :: rest => (w.length - j) + 1 + (rest.map (fun v => v.length + 1)).sum

/-! ## Throttle -/

/-- What one invocation of the function handed to `throttle` does, as far as the wrapper
is concerned: the calls it makes to the throttled wrapper itself while it runs (their
arguments, in order), and whether it ends by throwing instead of returning.  An exception
that comes out of such an inner call is taken not to be caught by the function. -/
structure FuncRun (α : Type) where
  reenters : List α
  throws : Bool
  deriving DecidableEq, Repr

/-- A function handed to `throttle`: what its invocation number `k` (counted from 0) does
when given the arguments. -/
abbrev ThrottledFunc (α : Type) := Nat → α → FuncRun α

/-- The closure of one `throttle(func, limit)` result: the flag `inThrottle` and the record
of the invocations of `func` (time and arguments of each `func.apply(context, args)`),
oldest first. -/
structure Throttled (α : Type) where
  inThrottle : Bool
  invocations : List (Nat × α)
  deriving DecidableEq, Repr

/-- The timer callback of `throttle`: `() => inThrottle = false`. -/
inductive ThrottleCallback where
  | release
  deriving DecidableEq, Repr

/-- The closure with its timers. -/
abbrev ThrottleLoop (α : Type) := EventLoop (Throttled α) ThrottleCallback

/-- State right after `throttle(func, limit)` returns at time `t`: `inThrottle` is still
`undefined`, nothing invoked, no timer. -/
def throttle (α : Type) (t : Nat) : ThrottleLoop α :=
  { now := t, timers := [], page := { inThrottle := false, invocations := [] } }

/-- A call of the function that `throttle(func, limit)` returned, with `stack` call frames
left; the result says whether the call ended by throwing.  When `inThrottle` is not set,
`func` is invoked first; while it runs, `inThrottle` is still unset, so its own calls of the
wrapper invoke it again.  Only when `func` has returned are `inThrottle` set and the release
timer started; when it throws, both are skipped.  Without a call frame left the call
throws (`RangeError`). -/
def throttledCallFuel {α : Type} (func : ThrottledFunc α) (limit : Nat) :
    Nat → α → ThrottleLoop α → ThrottleLoop α × Bool
  | 0, _, l => (l, true)
  | stack + 1, args, l =>
    if !l.page.inThrottle then
      let run := func l.page.invocations.length args
      let invoked : ThrottleLoop α :=
        { l with page := { l.page with invocations := l.page.invocations ++ [(l.now, args)] } }
      let inner := run.reenters.foldl
        (fun acc a => if acc.2 then acc else throttledCallFuel func limit stack a acc.1)
        (invoked, false)
      if inner.2 || run.throws then (inner.1, true)
      else
        (setTimeout ThrottleCallback.release limit
          { inner.1 with page := { inner.1.page with inThrottle := true } }, false)
    else (l, false)

/-- A call of the throttled function from the event loop (as an event listener): an
exception ends the listener and leaves the closure as it is at that moment. -/
def throttledCall {α : Type} (func : ThrottledFunc α) (limit stack : Nat) (args : α)
    (l : ThrottleLoop α) : ThrottleLoop α :=
  (throttledCallFuel func limit stack args l).1

/-- What the timer callback of `throttle` does when it runs. -/
def runThrottle {α : Type} : ThrottleCallback → ThrottleLoop α → ThrottleLoop α
  | .release, l => { l with page := { l.page with inThrottle := false } }

/-- Let time pass until `t`; the callback sets no timer, so a queue of `k` timers runs `k`
callbacks. -/
def advanceThrottle {α : Type} (t : Nat) (l : ThrottleLoop α) : ThrottleLoop α :=
  advanceFuel runThrottle (l.timers.length + 1) t l

/-- A call of the throttled function: how long after the previous call (or after the
start) it is made, and its arguments. -/
structure ThrottleCall (α : Type) where
  gap : Nat
  args : α
  deriving DecidableEq, Repr

/-- Time passes and the calls are made one after the other. -/
def runThrottleCalls {α : Type} (func : ThrottledFunc α) (limit stack : Nat) :
    List (ThrottleCall α) → ThrottleLoop α → ThrottleLoop α
  | [], l => l
  | c :: cs, l =>
    runThrottleCalls func limit stack cs
      (throttledCall func limit stack c.args (advanceThrottle (l.now + c.gap) l))

/-- The calls with the times at which they are made, the first gap counted from `t0`. -/
def throttleCallTimes {α : Type} : Nat → List (ThrottleCall α) → List (Nat × α)
  | _, [] => []
  | t0, c :: cs => (t0 + c.gap, c.args) :: throttleCallTimes (t0 + c.gap) cs

/-- Invariant of a throttle closure: while `inThrottle` is set exactly one release timer is
pending and it is due at least `limit` after every invocation; otherwise no timer is pending
and every invocation lies at least `limit` back; any two invocations are at least `limit`
apart. -/
structure ThrottleInv {α : Type} (limit : Nat) (l : ThrottleLoop α) : Prop where
  throttled : l.page.inThrottle = true →
    ∃ d, l.timers = [{ due := d, callback := ThrottleCallback.release }] ∧
      ∀ i ∈ l.page.invocations, i.1 + limit ≤ d
  free : l.page.inThrottle = false →
    l.timers = [] ∧ ∀ i ∈ l.page.invocations, i.1 + limit ≤ l.now
  apart : l.page.invocations.Pairwise (fun a b => a.1 + limit ≤ b.1)

/-- A function that returns normally whenever it is invoked and never calls the throttled
wrapper itself. -/
def ThrottledFunc.plain {α : Type} (func : ThrottledFunc α) : Prop :=
  ∀ k a, func k a = { reenters := [], throws := false }

/-! # Theorems -/

/-! ## Mobile menu -/

theorem closeMobileMenuOutside_outside_isClosed (s : MenuState) :
    (closeMobileMenuOutside outsideClick s).isClosed := by
  simp [closeMobileMenuOutside, outsideClick, MenuState.isClosed]

theorem foldl_closeOutside_isClosed (ls : List Nat) (s : MenuState)
    (h : ls ≠ [] ∨ s.isClosed) :
    (ls.foldl (fun acc _ => closeMobileMenuOutside outsideClick acc) s).isClosed := by
  induction ls generalizing s with
  | nil =>
    rcases h with h | h
    · exact absurd rfl h
    · simpa using h
  | cons x xs ih =>
    simp only [List.foldl_cons]
    exact ih _ (Or.inr (closeMobileMenuOutside_outside_isClosed s))

theorem toggle_closed_listeners_ne_nil (s : MenuState) (h : s.isClosed) :
    (toggleMobileMenu s).docClickListeners ≠ [] := by
  obtain ⟨_, h2, _⟩ := h
  simp only [toggleMobileMenu, h2, Bool.not_false, if_true, addEventListener]
  split
  · rename_i hm
    exact List.ne_nil_of_mem hm
  · simp

/-- C3. From the initial closed state, `toggleMobileMenu` takes closed to open and open to
closed; `closeMobileMenuOutside` with a target outside both elements, the `Escape` key and a
resize to a width above 768 (900 in particular) each end in the closed state; a resize to a
width of at most 768 leaves the menu as it is.  A click outside that reaches `document` after
the menu was opened with the hamburger closes it as well. -/
theorem menu_transitions (s : MenuState) (v : ResizeView) (w h : Nat) :
    MenuState.initial.isClosed ∧
    (s.isClosed → (toggleMobileMenu s).isOpen) ∧
    (s.isOpen → (toggleMobileMenu s).isClosed) ∧
    (s.isOpen → (closeMobileMenuOutside outsideClick s).isClosed) ∧
    (s.isClosed → (documentClick outsideClick (toggleMobileMenu s)).isClosed) ∧
    (s.isOpen → (keydown "Escape" s).isClosed) ∧
    (v.menu.isOpen → 768 < w → (resizeTo w h v).menu.isClosed) ∧
    (v.menu.isOpen → (resizeTo 900 h v).menu.isClosed) ∧
    (w ≤ 768 → (resizeTo w h v).menu = v.menu) := by
  refine ⟨by decide, ?_, ?_, ?_, ?_, ?_, ?_, ?_, ?_⟩
  · rintro ⟨h1, h2, h3⟩
    simp [toggleMobileMenu, MenuState.isOpen, h1, h2, h3]
  · rintro ⟨h1, h2, h3⟩
    simp [toggleMobileMenu, MenuState.isClosed, h1, h2, h3]
  · intro _
    exact closeMobileMenuOutside_outside_isClosed s
  · intro hc
    exact foldl_closeOutside_isClosed _ _ (Or.inl (toggle_closed_listeners_ne_nil s hc))
  · intro _
    simp [keydown, closeMobileMenu, MenuState.isClosed]
  · intro _ hw
    simp [resizeTo, handleResize, hw, closeMobileMenu, MenuState.isClosed]
  · intro _
    simp [resizeTo, handleResize, closeMobileMenu, MenuState.isClosed]
  · intro hw
    have : ¬ 768 < w := by omega
    simp [resizeTo, handleResize, this]

/-- C3, at a concrete state: the open menu that one activation of the hamburger produces,
in a window resized from 375 to 1024. -/
theorem menu_transitions_witness :
    (toggleMobileMenu MenuState.initial).isOpen ∧
    MenuState.initial.isClosed ∧
    (768 < 1024) ∧
    (resizeTo 1024 700
      { ResizeView.initial with menu := toggleMobileMenu MenuState.initial }).menu.isClosed :=
  ⟨by decide, by decide, by decide,
    (menu_transitions (toggleMobileMenu MenuState.initial)
      { ResizeView.initial with menu := toggleMobileMenu MenuState.initial } 1024 700).2.2.2.2.2.2.1
      (by decide) (by decide)⟩


theorem erase_fresh (ls : List Nat) (n : Nat) (h : ∀ f ∈ ls, f < n) : ls.erase n = ls := by
  apply List.erase_of_not_mem
  intro hm
  exact Nat.lt_irrefl _ (h n hm)

theorem closeMobileMenuOutside_listeners (e : ClickEvent) (s : MenuState)
    (h : s.listenersBelow) :
    (closeMobileMenuOutside e s).listenersBelow ∧
    (closeMobileMenuOutside e s).docClickListeners = s.docClickListeners := by
  unfold closeMobileMenuOutside
  split
  · simp only [removeEventListener, erase_fresh _ _ h, MenuState.listenersBelow, and_true]
    intro f hf
    exact Nat.lt_succ_of_lt (h f hf)
  · exact ⟨h, rfl⟩

theorem foldl_closeOutside_listeners (e : ClickEvent) (ls : List Nat) (s : MenuState)
    (h : s.listenersBelow) :
    (ls.foldl (fun acc _ => closeMobileMenuOutside e acc) s).listenersBelow ∧
    (ls.foldl (fun acc _ => closeMobileMenuOutside e acc) s).docClickListeners
      = s.docClickListeners := by
  induction ls generalizing s with
  | nil => exact ⟨h, rfl⟩
  | cons x xs ih =>
    simp only [List.foldl_cons]
    obtain ⟨h1, h2⟩ := closeMobileMenuOutside_listeners e s h
    obtain ⟨h3, h4⟩ := ih _ h1
    exact ⟨h3, h4.trans h2⟩

theorem toggle_closed_listeners (s : MenuState) (hc : s.isClosed) (h : s.listenersBelow) :
    (toggleMobileMenu s).isOpen ∧ (toggleMobileMenu s).listenersBelow ∧
    (toggleMobileMenu s).docClickListeners = s.docClickListeners ++ [s.nextFn] := by
  obtain ⟨h1, h2, h3⟩ := hc
  have hn : s.nextFn ∉ s.docClickListeners := fun hm => Nat.lt_irrefl _ (h _ hm)
  simp only [toggleMobileMenu, h1, h2, h3, Bool.not_false, if_true, addEventListener, hn,
    if_false, MenuState.isOpen, MenuState.listenersBelow, and_self, true_and, and_true]
  intro f hf
  rcases List.mem_append.mp hf with hf | hf
  · exact Nat.lt_succ_of_lt (h f hf)
  · simp only [List.mem_singleton] at hf
    omega

theorem openClose_listeners (p : ExitPath) (v : ResizeView)
    (hc : v.menu.isClosed) (h : v.menu.listenersBelow) :
    (openClose p v).menu.isClosed ∧ (openClose p v).menu.listenersBelow ∧
    (openClose p v).menu.docClickListeners = v.menu.docClickListeners ++ [v.menu.nextFn] := by
  obtain ⟨ho, hb, hl⟩ := toggle_closed_listeners v.menu hc h
  obtain ⟨o1, o2, o3⟩ := ho
  cases p with
  | toggle =>
    simp only [openClose, closeVia]
    refine ⟨?_, ?_, ?_⟩
    · simp [toggleMobileMenu, MenuState.isClosed, hc.1, hc.2.1, hc.2.2]
    · have : (toggleMobileMenu (toggleMobileMenu v.menu)).docClickListeners
          = (toggleMobileMenu v.menu).docClickListeners ∧
          (toggleMobileMenu (toggleMobileMenu v.menu)).nextFn
          = (toggleMobileMenu v.menu).nextFn := by
        simp [toggleMobileMenu, hc.1, hc.2.1, hc.2.2]
      intro f hf
      rw [this.1] at hf
      rw [this.2]
      exact hb f hf
    · rw [← hl]
      simp [toggleMobileMenu, hc.1, hc.2.1, hc.2.2]
  | outsideClick =>
    simp only [openClose, closeVia, documentClick]
    obtain ⟨f1, f2⟩ := foldl_closeOutside_listeners outsideClick
      (toggleMobileMenu v.menu).docClickListeners (toggleMobileMenu v.menu) hb
    refine ⟨?_, f1, f2.trans hl⟩
    exact foldl_closeOutside_isClosed _ _ (Or.inl (toggle_closed_listeners_ne_nil _ hc))
  | escape =>
    simp only [openClose, closeVia, keydown, if_true, closeMobileMenu]
    exact ⟨⟨rfl, rfl, rfl⟩, hb, hl⟩
  | resize =>
    simp only [openClose, closeVia, resizeTo, handleResize, closeMobileMenu]
    simp only [show (900 : Nat) > 768 by decide, if_true]
    exact ⟨⟨rfl, rfl, rfl⟩, hb, hl⟩

theorem cycles_listeners (ps : List ExitPath) (v : ResizeView)
    (hc : v.menu.isClosed) (h : v.menu.listenersBelow) :
    (cycles ps v).menu.isClosed ∧ (cycles ps v).menu.listenersBelow ∧
    (cycles ps v).menu.docClickListeners.length
      = v.menu.docClickListeners.length + ps.length := by
  induction ps generalizing v with
  | nil => exact ⟨hc, h, rfl⟩
  | cons p ps ih =>
    obtain ⟨a1, a2, a3⟩ := openClose_listeners p v hc h
    obtain ⟨b1, b2, b3⟩ := ih (openClose p v) a1 a2
    refine ⟨b1, b2, ?_⟩
    simp only [cycles, List.foldl_cons] at b3 ⊢
    rw [b3, a3]
    simp only [List.length_append, List.length_cons, List.length_nil]
    omega

/-- C4 (what the code does). After `n` repetitions of opening the menu with the hamburger
and closing it again, by whichever of the four exit paths each time, `n` outside-click
listeners are registered on the document: every opening adds one and no exit path removes
any.  After 50 repetitions there are 50, after 2 there are 2, so the bound of one listener
fails from the second repetition on. -/
theorem listeners_accumulate (ps : List ExitPath) :
    (cycles ps ResizeView.initial).menu.docClickListeners.length = ps.length ∧
    (cycles (List.replicate 50 ExitPath.outsideClick)
      ResizeView.initial).menu.docClickListeners.length = 50 ∧
    (cycles [ExitPath.toggle, ExitPath.toggle]
      ResizeView.initial).menu.docClickListeners = [0, 1] := by
  have key : ∀ qs : List ExitPath,
      (cycles qs ResizeView.initial).menu.docClickListeners.length = qs.length := by
    intro qs
    have h := (cycles_listeners qs ResizeView.initial (by decide)
      (by intro f hf; simp [ResizeView.initial, MenuState.initial] at hf)).2.2
    simpa [ResizeView.initial, MenuState.initial] using h
  refine ⟨key ps, ?_, by decide⟩
  rw [key]
  simp


/-! ## Header and back-to-top button -/

/-- C7. After `updateHeaderStyle(offset)` the header carries the class `scrolled` exactly
when `offset > 100`, and its box shadow is set (not `none`) exactly then, whatever the header
was before; offsets 0 and 100 give the plain header, offset 150 the solid one. -/
theorem header_threshold (header : Header) (offset : ℚ) :
    ((updateHeaderStyle config offset header).scrolled = true ↔ 100 < offset) ∧
    ((updateHeaderStyle config offset header).boxShadow ≠ "none" ↔ 100 < offset) ∧
    (updateHeaderStyle config 0 header).scrolled = false ∧
    (updateHeaderStyle config 100 header).scrolled = false ∧
    (updateHeaderStyle config 150 header).scrolled = true := by
  refine ⟨?_, ?_, ?_, ?_, ?_⟩
  · by_cases h : 100 < offset <;> simp [updateHeaderStyle, config, h]
  · by_cases h : 100 < offset <;> simp [updateHeaderStyle, config, h]
  · norm_num [updateHeaderStyle, config]
  · norm_num [updateHeaderStyle, config]
  · norm_num [updateHeaderStyle, config]

/-- C8 as stated fails: after `updateBackToTopButton(300)` the class `show` is absent,
also on a button that had it. -/
theorem backToTop_hidden_at_300 :
    ¬ ((updateBackToTopButton 300 { showClass := true }).showClass = true ∧
       (updateBackToTopButton 299 { showClass := true }).showClass = false) := by
  norm_num [updateBackToTopButton]

/-- C8, amended. After `updateBackToTopButton(offset)` the class `show` is present exactly
when `offset > 300`: present at 301, absent at 300 and at 299. -/
theorem backToTop_threshold (btn : BackToTop) (offset : ℚ) :
    ((updateBackToTopButton offset btn).showClass = true ↔ 300 < offset) ∧
    (updateBackToTopButton 301 btn).showClass = true ∧
    (updateBackToTopButton 300 btn).showClass = false ∧
    (updateBackToTopButton 299 btn).showClass = false := by
  refine ⟨?_, ?_, ?_, ?_⟩
  · by_cases h : 300 < offset <;> simp [updateBackToTopButton, h]
  · norm_num [updateBackToTopButton]
  · norm_num [updateBackToTopButton]
  · norm_num [updateBackToTopButton]


/-! ## Rounding -/

theorem natLog2Fuel_spec (fuel n : Nat) (hn : 0 < n) (hf : n ≤ fuel) :
    2 ^ natLog2Fuel fuel n ≤ n ∧ n < 2 ^ (natLog2Fuel fuel n + 1) := by
  induction fuel generalizing n with
  | zero => omega
  | succ f ih =>
    unfold natLog2Fuel
    split
    · have : n = 1 := by omega
      subst this
      simp
    · have h2 : 0 < n / 2 := Nat.div_pos (by omega) (by decide)
      have h3 : n / 2 ≤ f := by omega
      obtain ⟨a, b⟩ := ih (n / 2) h2 h3
      generalize natLog2Fuel f (n / 2) = k at a b
      constructor
      · rw [pow_succ]; omega
      · rw [pow_succ]; omega

theorem natLog2_spec (n : Nat) (hn : 0 < n) :
    2 ^ natLog2 n ≤ n ∧ n < 2 ^ (natLog2 n + 1) :=
  natLog2Fuel_spec n n hn (Nat.le_refl n)

theorem pow2_eq (e : Int) : pow2 e = (2 : ℚ) ^ e := by
  cases e with
  | ofNat n => simp [pow2]
  | negSucc n => simp [pow2, zpow_negSucc]

theorem pow2_pos (e : Int) : 0 < pow2 e := by
  rw [pow2_eq]; positivity

theorem pow2_le_pow2 {a b : Int} (h : a ≤ b) : pow2 a ≤ pow2 b := by
  rw [pow2_eq, pow2_eq]
  exact zpow_le_zpow_right₀ (by norm_num) h

theorem pow2_add (a b : Int) : pow2 (a + b) = pow2 a * pow2 b := by
  rw [pow2_eq, pow2_eq, pow2_eq, zpow_add₀ (by norm_num)]

theorem ilog2_spec (x : ℚ) (hx : 0 < x) :
    pow2 (ilog2 x) ≤ x ∧ x < pow2 (ilog2 x + 1) := by
  have hnum : 0 < x.num := Rat.num_pos.mpr hx
  have hp : 0 < x.num.natAbs := Int.natAbs_pos.mpr (ne_of_gt hnum)
  have hq : 0 < x.den := x.den_pos
  obtain ⟨a1, a2⟩ := natLog2_spec _ hp
  obtain ⟨b1, b2⟩ := natLog2_spec _ hq
  unfold ilog2
  simp only
  have hxe : x = (x.num.natAbs : ℚ) / (x.den : ℚ) := by
    have h1 : ((x.num.natAbs : ℤ) : ℚ) = (x.num : ℚ) := by
      rw [Int.natAbs_of_nonneg (le_of_lt hnum)]
    rw [← Int.cast_natCast, h1, Rat.num_div_den]
  generalize x.num.natAbs = p at *
  generalize x.den = q at *
  generalize natLog2 p = a at *
  generalize natLog2 q = b at *
  have hqQ : (0 : ℚ) < q := by exact_mod_cast hq
  have A1 : ((2 : ℚ) ^ a) ≤ p := by exact_mod_cast a1
  have A2 : (p : ℚ) < (2 : ℚ) ^ (a + 1) := by exact_mod_cast a2
  have B1 : ((2 : ℚ) ^ b) ≤ q := by exact_mod_cast b1
  have B2 : (q : ℚ) < (2 : ℚ) ^ (b + 1) := by exact_mod_cast b2
  have hb : (0 : ℚ) < (2 : ℚ) ^ b := by positivity
  have ha : (0 : ℚ) < (2 : ℚ) ^ a := by positivity
  have up : x < pow2 ((a : ℤ) - b + 1) := by
    rw [pow2_eq, show (a : ℤ) - b + 1 = ((a + 1 : ℕ) : ℤ) - ((b : ℕ) : ℤ) by push_cast; ring,
      zpow_sub₀ (by norm_num), zpow_natCast, zpow_natCast, hxe, div_lt_div_iff₀ hqQ hb]
    calc (p : ℚ) * 2 ^ b < 2 ^ (a + 1) * 2 ^ b := by
          exact mul_lt_mul_of_pos_right A2 hb
      _ ≤ 2 ^ (a + 1) * q := by
          exact mul_le_mul_of_nonneg_left B1 (by positivity)
  have lo : pow2 ((a : ℤ) - b - 1) ≤ x := by
    rw [pow2_eq, show (a : ℤ) - b - 1 = ((a : ℕ) : ℤ) - ((b + 1 : ℕ) : ℤ) by push_cast; ring,
      zpow_sub₀ (by norm_num), zpow_natCast, zpow_natCast, hxe,
      div_le_div_iff₀ (by positivity) hqQ]
    calc (2 : ℚ) ^ a * q ≤ 2 ^ a * 2 ^ (b + 1) := by
          exact mul_le_mul_of_nonneg_left (le_of_lt B2) (by positivity)
      _ ≤ p * 2 ^ (b + 1) := by
          exact mul_le_mul_of_nonneg_right A1 (by positivity)
  split
  · rename_i h
    exact ⟨h, up⟩
  · rename_i h
    refine ⟨lo, ?_⟩
    rw [show (a : ℤ) - b - 1 + 1 = (a : ℤ) - b by ring]
    exact lt_of_not_le h

theorem ilog2_mono {x y : ℚ} (hx : 0 < x) (hxy : x ≤ y) : ilog2 x ≤ ilog2 y := by
  by_contra h
  have h' : ilog2 y + 1 ≤ ilog2 x := by omega
  have hy : 0 < y := lt_of_lt_of_le hx hxy
  have := (ilog2_spec x hx).1
  have := (ilog2_spec y hy).2
  have := pow2_le_pow2 h'
  linarith

theorem roundHalfEven_cases (m : ℚ) :
    roundHalfEven m = ⌊m⌋ ∨ roundHalfEven m = ⌊m⌋ + 1 := by
  unfold roundHalfEven
  simp only
  split_ifs <;> simp

theorem roundHalfEven_error (m : ℚ) : |(roundHalfEven m : ℚ) - m| ≤ 1 / 2 := by
  have h1 := Int.floor_le m
  have h2 := Int.lt_floor_add_one m
  unfold roundHalfEven
  simp only
  rw [abs_le]
  split_ifs <;> push_cast <;> constructor <;> linarith

theorem roundHalfEven_intCast (n : ℤ) : roundHalfEven (n : ℚ) = n := by
  unfold roundHalfEven
  simp

theorem roundHalfEven_mono {m m' : ℚ} (h : m ≤ m') : roundHalfEven m ≤ roundHalfEven m' := by
  have hf : ⌊m⌋ ≤ ⌊m'⌋ := Int.floor_mono h
  rcases lt_or_eq_of_le hf with hlt | heq
  · have a : roundHalfEven m ≤ ⌊m⌋ + 1 := by
      rcases roundHalfEven_cases m with c | c <;> omega
    have b : ⌊m'⌋ ≤ roundHalfEven m' := by
      rcases roundHalfEven_cases m' with c | c <;> omega
    omega
  · unfold roundHalfEven
    simp only
    rw [heq]
    split_ifs <;> first | omega | (exfalso; linarith)

theorem pow2_52 : pow2 52 = ((4503599627370496 : ℤ) : ℚ) := by
  norm_num [pow2_eq]

theorem pow2_53 : pow2 53 = ((9007199254740992 : ℤ) : ℚ) := by
  norm_num [pow2_eq]

theorem pow2_split (e : Int) : pow2 e = pow2 52 * pow2 (e - 52) := by
  rw [← pow2_add]; congr 1; ring

theorem pow2_split_succ (e : Int) : pow2 (e + 1) = pow2 53 * pow2 (e - 52) := by
  rw [← pow2_add]; congr 1; ring

theorem rndPos_bounds (x : ℚ) (hx : 0 < x) :
    pow2 (ilog2 x) ≤ rndPos x ∧ rndPos x ≤ pow2 (ilog2 x + 1) := by
  obtain ⟨lo, hi⟩ := ilog2_spec x hx
  have hu := pow2_pos (ilog2 x - 52)
  unfold rndPos
  simp only
  constructor
  · have h1 : ((4503599627370496 : ℤ) : ℚ) ≤ x / pow2 (ilog2 x - 52) := by
      rw [le_div_iff₀ hu, ← pow2_52, ← pow2_split]
      exact lo
    have h2 := roundHalfEven_mono h1
    rw [roundHalfEven_intCast] at h2
    have h3 : ((4503599627370496 : ℤ) : ℚ) ≤ (roundHalfEven (x / pow2 (ilog2 x - 52)) : ℚ) := by
      exact_mod_cast h2
    calc pow2 (ilog2 x) = ((4503599627370496 : ℤ) : ℚ) * pow2 (ilog2 x - 52) := by
          rw [← pow2_52, ← pow2_split]
      _ ≤ _ := mul_le_mul_of_nonneg_right h3 (le_of_lt hu)
  · have h1 : x / pow2 (ilog2 x - 52) ≤ ((9007199254740992 : ℤ) : ℚ) := by
      rw [div_le_iff₀ hu, ← pow2_53, ← pow2_split_succ]
      exact le_of_lt hi
    have h2 := roundHalfEven_mono h1
    rw [roundHalfEven_intCast] at h2
    have h3 : (roundHalfEven (x / pow2 (ilog2 x - 52)) : ℚ) ≤ ((9007199254740992 : ℤ) : ℚ) := by
      exact_mod_cast h2
    calc _ ≤ ((9007199254740992 : ℤ) : ℚ) * pow2 (ilog2 x - 52) :=
          mul_le_mul_of_nonneg_right h3 (le_of_lt hu)
      _ = pow2 (ilog2 x + 1) := by rw [← pow2_53, ← pow2_split_succ]

theorem rndPos_pos (x : ℚ) (hx : 0 < x) : 0 < rndPos x :=
  lt_of_lt_of_le (pow2_pos _) (rndPos_bounds x hx).1

theorem rndPos_mono {x y : ℚ} (hx : 0 < x) (hxy : x ≤ y) : rndPos x ≤ rndPos y := by
  have hy : 0 < y := lt_of_lt_of_le hx hxy
  rcases lt_or_eq_of_le (ilog2_mono hx hxy) with hlt | heq
  · calc rndPos x ≤ pow2 (ilog2 x + 1) := (rndPos_bounds x hx).2
      _ ≤ pow2 (ilog2 y) := pow2_le_pow2 (by omega)
      _ ≤ rndPos y := (rndPos_bounds y hy).1
  · unfold rndPos
    simp only
    rw [heq]
    have hu := pow2_pos (ilog2 y - 52)
    have h1 : x / pow2 (ilog2 y - 52) ≤ y / pow2 (ilog2 y - 52) :=
      div_le_div_of_nonneg_right hxy (le_of_lt hu)
    have h2 := roundHalfEven_mono h1
    have h3 : (roundHalfEven (x / pow2 (ilog2 y - 52)) : ℚ)
        ≤ (roundHalfEven (y / pow2 (ilog2 y - 52)) : ℚ) := by exact_mod_cast h2
    exact mul_le_mul_of_nonneg_right h3 (le_of_lt hu)

theorem rnd_of_pos {x : ℚ} (hx : 0 < x) : rnd x = rndPos x := by
  unfold rnd
  rw [if_neg (ne_of_gt hx), if_pos hx]

theorem rnd_of_neg {x : ℚ} (hx : x < 0) : rnd x = - rndPos (-x) := by
  unfold rnd
  rw [if_neg (ne_of_lt hx), if_neg (not_lt.mpr (le_of_lt hx))]

theorem rnd_zero : rnd 0 = 0 := by
  unfold rnd
  simp

theorem rnd_pos {x : ℚ} (hx : 0 < x) : 0 < rnd x := by
  rw [rnd_of_pos hx]; exact rndPos_pos x hx

theorem rnd_neg {x : ℚ} (hx : x < 0) : rnd x < 0 := by
  rw [rnd_of_neg hx]
  have := rndPos_pos (-x) (by linarith)
  linarith

theorem rnd_nonneg {x : ℚ} (hx : 0 ≤ x) : 0 ≤ rnd x := by
  rcases lt_or_eq_of_le hx with h | h
  · exact le_of_lt (rnd_pos h)
  · rw [← h, rnd_zero]

theorem rnd_mono {x y : ℚ} (hxy : x ≤ y) : rnd x ≤ rnd y := by
  rcases lt_trichotomy x 0 with hx | hx | hx
  · rcases lt_trichotomy y 0 with hy | hy | hy
    · rw [rnd_of_neg hx, rnd_of_neg hy]
      have := rndPos_mono (x := -y) (y := -x) (by linarith) (by linarith)
      linarith
    · rw [hy, rnd_zero]; exact le_of_lt (rnd_neg hx)
    · exact le_of_lt (lt_trans (rnd_neg hx) (rnd_pos hy))
  · have hy : 0 ≤ y := by linarith
    rw [hx, rnd_zero]; exact rnd_nonneg hy
  · have hy : 0 < y := by linarith
    rw [rnd_of_pos hx, rnd_of_pos hy]
    exact rndPos_mono hx hxy

theorem rndPos_error (x : ℚ) (hx : 0 < x) :
    |rndPos x - x| ≤ x / 9007199254740992 := by
  obtain ⟨lo, _⟩ := ilog2_spec x hx
  have hu := pow2_pos (ilog2 x - 52)
  have he := roundHalfEven_error (x / pow2 (ilog2 x - 52))
  rw [pow2_split, pow2_52] at lo
  unfold rndPos
  simp only
  generalize pow2 (ilog2 x - 52) = u at *
  generalize (roundHalfEven (x / u) : ℚ) = r at *
  have hx' : x = (x / u) * u := by field_simp
  rw [abs_le] at he ⊢
  obtain ⟨e1, e2⟩ := he
  have k1 : (r - x / u) * u ≤ 1 / 2 * u := mul_le_mul_of_nonneg_right e2 (le_of_lt hu)
  have k2 : -(1 / 2) * u ≤ (r - x / u) * u := mul_le_mul_of_nonneg_right e1 (le_of_lt hu)
  have k3 : (r - x / u) * u = r * u - x := by
    rw [sub_mul, ← hx']
  rw [k3] at k1 k2
  push_cast at lo
  constructor <;> linarith

/-! ## Scroll progress -/

theorem scrollProgressValue_tall (y : ℚ) (scrollHeight innerHeight : Int)
    (hd : innerHeight < scrollHeight) :
    scrollProgressValue y scrollHeight innerHeight
      = JSNum.fin (min (rnd (rnd (y / ((scrollHeight - innerHeight : Int) : ℚ)) * 100)) 100) := by
  have hpos : (0 : ℚ) < ((scrollHeight - innerHeight : Int) : ℚ) := by
    exact_mod_cast Int.sub_pos.mpr hd
  unfold scrollProgressValue
  simp only [JSNum.div, ne_of_gt hpos, if_false, JSNum.mul, JSNum.min]
  split
  · rename_i h
    rw [min_eq_left h]
  · rename_i h
    rw [min_eq_right (le_of_lt (lt_of_not_le h))]

/-- C5 as stated fails: with `scrollHeight` 500 below `innerHeight` 600 the value written at
offset 10 is -10, below 0 and below the 0 written at offset 0; and with `scrollHeight` equal
to `innerHeight` (600 each) the value written at offset 0 is `NaN`, no percentage at all. -/
theorem scrollProgress_not_in_range :
    (¬ ∃ p : ℚ, updateProgressBar 10 500 600 (some { widthPercent := JSNum.fin 0 })
        = some { widthPercent := JSNum.fin p } ∧ 0 ≤ p ∧ p ≤ 100) ∧
    updateProgressBar 0 500 600 (some { widthPercent := JSNum.fin 0 })
      = some { widthPercent := JSNum.fin 0 } ∧
    updateProgressBar 10 500 600 (some { widthPercent := JSNum.fin 0 })
      = some { widthPercent := JSNum.fin (-10) } ∧
    (¬ ∃ p : ℚ, updateProgressBar 0 600 600 (some { widthPercent := JSNum.fin 0 })
        = some { widthPercent := JSNum.fin p } ∧ 0 ≤ p ∧ p ≤ 100) := by
  have h1 : updateProgressBar 10 500 600 (some { widthPercent := JSNum.fin 0 })
      = some { widthPercent := JSNum.fin (-10) } := by decide!
  have h0 : updateProgressBar 0 500 600 (some { widthPercent := JSNum.fin 0 })
      = some { widthPercent := JSNum.fin 0 } := by decide!
  refine ⟨?_, h0, h1, ?_⟩
  · rintro ⟨p, h, hp, _⟩
    rw [h1] at h
    simp only [Option.some.injEq, ProgressBar.mk.injEq, JSNum.fin.injEq] at h
    rw [← h] at hp
    norm_num at hp
  · rintro ⟨p, h, _⟩
    simp [updateProgressBar, scrollProgressValue, JSNum.div, JSNum.mul, JSNum.min] at h

/-- C5, amended. When the document is taller than the viewport
(`scrollHeight > innerHeight`), then for offsets `0 ≤ a ≤ b` the percentages that
`updateProgressBar` writes are finite, lie between 0 and 100, and the one for `a` is at most
the one for `b`. -/
theorem scrollProgress_range_mono (a b : ℚ) (scrollHeight innerHeight : Int)
    (bar : ProgressBar) (hd : innerHeight < scrollHeight) (ha : 0 ≤ a) (hab : a ≤ b) :
    ∃ p q : ℚ,
      updateProgressBar a scrollHeight innerHeight (some bar)
        = some { widthPercent := JSNum.fin p } ∧
      updateProgressBar b scrollHeight innerHeight (some bar)
        = some { widthPercent := JSNum.fin q } ∧
      0 ≤ p ∧ p ≤ q ∧ q ≤ 100 := by
  have hpos : (0 : ℚ) < ((scrollHeight - innerHeight : Int) : ℚ) := by
    exact_mod_cast Int.sub_pos.mpr hd
  refine ⟨min (rnd (rnd (a / ((scrollHeight - innerHeight : Int) : ℚ)) * 100)) 100,
    min (rnd (rnd (b / ((scrollHeight - innerHeight : Int) : ℚ)) * 100)) 100, ?_, ?_, ?_, ?_, ?_⟩
  · simp only [updateProgressBar]
    rw [scrollProgressValue_tall a _ _ hd]
  · simp only [updateProgressBar]
    rw [scrollProgressValue_tall b _ _ hd]
  · apply le_min _ (by norm_num)
    apply rnd_nonneg
    exact mul_nonneg (rnd_nonneg (div_nonneg ha (le_of_lt hpos))) (by norm_num)
  · apply min_le_min _ (le_refl _)
    apply rnd_mono
    apply mul_le_mul_of_nonneg_right _ (by norm_num)
    apply rnd_mono
    exact div_le_div_of_nonneg_right hab (le_of_lt hpos)
  · exact min_le_right _ _

/-- C5, amended, at offsets 300 and 600 of a page 1600 high in a viewport 600 high. -/
theorem scrollProgress_range_mono_witness :
    ((600 : Int) < 1600) ∧ ((0 : ℚ) ≤ 300) ∧ ((300 : ℚ) ≤ 600) ∧
    ∃ p q : ℚ,
      updateProgressBar 300 1600 600 (some { widthPercent := JSNum.fin 0 })
        = some { widthPercent := JSNum.fin p } ∧
      updateProgressBar 600 1600 600 (some { widthPercent := JSNum.fin 0 })
        = some { widthPercent := JSNum.fin q } ∧
      0 ≤ p ∧ p ≤ q ∧ q ≤ 100 :=
  ⟨by decide, by norm_num, by norm_num,
    scrollProgress_range_mono 300 600 1600 600 { widthPercent := JSNum.fin 0 }
      (by decide) (by norm_num) (by norm_num)⟩

/-- C6 (what the code does). With `scrollHeight` equal to `innerHeight` the divisor is 0 and
nothing guards the division: `updateProgressBar` writes `NaN` at offset 0, 100 at every
positive offset and `-Infinity` at a negative one; it writes 0 at no offset. -/
theorem short_page_progress (y : ℚ) (height : Int) (bar : ProgressBar) :
    updateProgressBar y height height (some bar)
      = some { widthPercent :=
          if y = 0 then JSNum.nan else if 0 < y then JSNum.fin 100 else JSNum.negInf } ∧
    updateProgressBar 0 800 800 (some { widthPercent := JSNum.fin 0 })
      = some { widthPercent := JSNum.nan } := by
  constructor
  · simp only [updateProgressBar, scrollProgressValue, sub_self, Int.cast_zero, JSNum.div,
      if_true]
    by_cases h0 : y = 0
    · simp [h0, JSNum.mul, JSNum.min]
    · by_cases h1 : 0 < y
      · simp [h0, h1, JSNum.mul, JSNum.min]
      · simp [h0, h1, JSNum.mul, JSNum.min]
  · simp [updateProgressBar, scrollProgressValue, JSNum.div, JSNum.mul, JSNum.min]

/-! ## Timers -/

theorem insertTimer_perm {α : Type} (t : Timer α) (ts : List (Timer α)) :
    List.Perm (insertTimer t ts) (t :: ts) := by
  induction ts with
  | nil => exact List.Perm.refl _
  | cons x xs ih =>
    unfold insertTimer
    split
    · exact (List.Perm.cons x ih).trans (List.Perm.swap t x xs)
    · exact List.Perm.refl _

theorem mem_insertTimer {α : Type} (t y : Timer α) (ts : List (Timer α)) :
    y ∈ insertTimer t ts ↔ y = t ∨ y ∈ ts := by
  rw [(insertTimer_perm t ts).mem_iff, List.mem_cons]

theorem insertTimer_sorted {α : Type} (t : Timer α) (ts : List (Timer α))
    (h : ts.Pairwise (fun a b => a.due ≤ b.due)) :
    (insertTimer t ts).Pairwise (fun a b => a.due ≤ b.due) := by
  induction ts with
  | nil => simp [insertTimer]
  | cons x xs ih =>
    rw [List.pairwise_cons] at h
    unfold insertTimer
    split
    · rename_i hx
      rw [List.pairwise_cons]
      refine ⟨?_, ih h.2⟩
      intro y hy
      rcases (mem_insertTimer t y xs).mp hy with rfl | hy
      · exact hx
      · exact h.1 y hy
    · rename_i hx
      have hx' : t.due ≤ x.due := by omega
      rw [List.pairwise_cons, List.pairwise_cons]
      refine ⟨?_, h.1, h.2⟩
      intro y hy
      rcases List.mem_cons.mp hy with rfl | hy
      · exact hx'
      · exact le_trans hx' (h.1 y hy)

theorem length_modifyAt {β : Type} (f : β → β) (i : Nat) (l : List β) :
    (modifyAt f i l).length = l.length := by
  induction l generalizing i with
  | nil => cases i <;> rfl
  | cons x xs ih =>
    cases i with
    | zero => rfl
    | succ i => simp [modifyAt, ih]

theorem getElem?_modifyAt {β : Type} (f : β → β) (i j : Nat) (l : List β) :
    (modifyAt f i l)[j]? = if j = i then l[j]?.map f else l[j]? := by
  induction l generalizing i j with
  | nil => cases i <;> simp [modifyAt]
  | cons x xs ih =>
    cases i with
    | zero =>
      cases j with
      | zero => simp [modifyAt]
      | succ j => simp [modifyAt]
    | succ i =>
      cases j with
      | zero => simp [modifyAt]
      | succ j => simp [modifyAt, ih]

/-! ## Notifications: the invariant -/

theorem timersOf_cons_of_id {i : Nat} {x : Timer NotifCallback} (rest : List (Timer NotifCallback))
    (h : x.callback.id = i) : timersOf i (x :: rest) = x :: timersOf i rest := by
  simp [timersOf, h]

theorem timersOf_cons_of_ne {i : Nat} {x : Timer NotifCallback} (rest : List (Timer NotifCallback))
    (h : x.callback.id ≠ i) : timersOf i (x :: rest) = timersOf i rest := by
  simp [timersOf, h]

theorem timersOf_insert_of_ne {i : Nat} {x : Timer NotifCallback} (ts : List (Timer NotifCallback))
    (h : x.callback.id ≠ i) : List.Perm (timersOf i (insertTimer x ts)) (timersOf i ts) := by
  have := (insertTimer_perm x ts).filter (fun y => decide (y.callback.id = i))
  rw [← timersOf_cons_of_ne ts h]
  exact this

theorem timersOf_insert_of_id {i : Nat} {x : Timer NotifCallback} (ts : List (Timer NotifCallback))
    (h : x.callback.id = i) : List.Perm (timersOf i (insertTimer x ts)) (x :: timersOf i ts) := by
  have := (insertTimer_perm x ts).filter (fun y => decide (y.callback.id = i))
  rw [← timersOf_cons_of_id ts h]
  exact this

theorem perm_pair {β : Type} {x a b : β} {F : List β} (h : List.Perm (x :: F) [a, b]) :
    (x = a ∧ List.Perm F [b]) ∨ (x = b ∧ List.Perm F [a]) := by
  have hx : x ∈ [a, b] := h.subset (List.mem_cons_self x F)
  simp only [List.mem_cons, List.mem_singleton, List.not_mem_nil, or_false] at hx
  rcases hx with rfl | rfl
  · exact Or.inl ⟨rfl, h.cons_inv⟩
  · exact Or.inr ⟨rfl, (h.trans (List.Perm.swap x a [])).cons_inv⟩

theorem perm_single {β : Type} {x a : β} {F : List β} (h : List.Perm (x :: F) [a]) :
    x = a ∧ F = [] := by
  have hx : x ∈ [a] := h.subset (List.mem_cons_self x F)
  simp only [List.mem_singleton] at hx
  subst hx
  exact ⟨rfl, List.perm_nil.mp h.cons_inv⟩

theorem NotifPhase.mono {ts ts' : List (Timer NotifCallback)} {now now' i : Nat}
    {c : NotifCall} {t : Nat} {n : Notification} (h : NotifPhase ts now i c t n)
    (hp : List.Perm (timersOf i ts') (timersOf i ts)) (hn : now ≤ now') :
    NotifPhase ts' now' i c t n := by
  rcases h with ⟨p, e, q⟩ | ⟨p, e, q⟩ | ⟨p, e, q⟩ | ⟨p, e, q⟩
  · exact Or.inl ⟨hp.trans p, e, by omega⟩
  · exact Or.inr (Or.inl ⟨hp.trans p, e, by omega⟩)
  · exact Or.inr (Or.inr (Or.inl ⟨hp.trans p, e, by omega⟩))
  · refine Or.inr (Or.inr (Or.inr ⟨?_, e, by omega⟩))
    rw [p] at hp
    exact List.perm_nil.mp hp

theorem fire_preserves (l : NotifLoop) (es : List (NotifCall × Nat)) (x : Timer NotifCallback)
    (rest : List (Timer NotifCallback)) (hl : l.timers = x :: rest) (inv : NotifInv l es) :
    NotifInv (runNotif x.callback { l with now := max l.now x.due, timers := rest }) es := by
  have hge : l.now ≤ x.due := inv.due_ge x (by rw [hl]; exact List.mem_cons_self _ _)
  have hmax : max l.now x.due = x.due := max_eq_right hge
  have hs := inv.sorted
  rw [hl, List.pairwise_cons] at hs
  have hid : x.callback.id < l.page.length := inv.ids x (by rw [hl]; exact List.mem_cons_self _ _)
  have hids : ∀ y ∈ rest, y.callback.id < l.page.length :=
    fun y hy => inv.ids y (by rw [hl]; exact List.mem_cons_of_mem _ hy)
  have hph := inv.phase
  rw [hl] at hph
  rw [hmax]
  obtain ⟨d, cb⟩ := x
  cases cb with
  | slideIn k =>
    simp only [runNotif]
    refine ⟨by simpa [length_modifyAt] using inv.len, hs.2, hs.1, ?_, ?_⟩
    · simpa [length_modifyAt] using hids
    · intro i c t hi
      obtain ⟨n, hn, ph⟩ := hph i c t hi
      by_cases hik : i = k
      · subst hik
        refine ⟨{ n with transform := "translateX(0)" }, ?_, ?_⟩
        · simp [getElem?_modifyAt, hn]
        · rw [NotifPhase, timersOf_cons_of_id (i := i)
            (x := { due := d, callback := NotifCallback.slideIn i }) rest rfl] at ph
          rcases ph with ⟨p, e, q⟩ | ⟨p, e, q⟩ | ⟨p, e, q⟩ | ⟨p, e, q⟩
          · rcases perm_pair p with ⟨h1, h2⟩ | ⟨h1, h2⟩
            · simp only [Timer.mk.injEq, and_true] at h1
              subst h1
              exact Or.inr (Or.inl ⟨h2, by rw [e]; rfl, le_refl _⟩)
            · simp at h1
          · have := (perm_single p).1
            simp at this
          · have := (perm_single p).1
            simp at this
          · simp at p
      · refine ⟨n, ?_, ?_⟩
        · simp [getElem?_modifyAt, hik, hn]
        · apply ph.mono _ hge
          rw [timersOf_cons_of_ne rest (by simpa [NotifCallback.id] using Ne.symm hik)]
  | slideOut k =>
    simp only [runNotif, setTimeout]
    refine ⟨by simpa [length_modifyAt] using inv.len, insertTimer_sorted _ _ hs.2, ?_, ?_, ?_⟩
    · intro y hy
      rcases (mem_insertTimer _ y rest).mp hy with rfl | hy
      · simp
      · exact hs.1 y hy
    · intro y hy
      rw [length_modifyAt]
      rcases (mem_insertTimer _ y rest).mp hy with rfl | hy
      · exact hid
      · exact hids y hy
    · intro i c t hi
      obtain ⟨n, hn, ph⟩ := hph i c t hi
      by_cases hik : i = k
      · subst hik
        refine ⟨{ n with transform := "translateX(400px)" }, ?_, ?_⟩
        · simp [getElem?_modifyAt, hn]
        · rw [NotifPhase, timersOf_cons_of_id (i := i)
            (x := { due := d, callback := NotifCallback.slideOut i }) rest rfl] at ph
          rcases ph with ⟨p, e, q⟩ | ⟨p, e, q⟩ | ⟨p, e, q⟩ | ⟨p, e, q⟩
          · rcases perm_pair p with ⟨h1, h2⟩ | ⟨h1, h2⟩
            · simp at h1
            · simp only [Timer.mk.injEq, and_true] at h1
              subst h1
              have hm : ({ due := t + 100, callback := NotifCallback.slideIn i } :
                  Timer NotifCallback) ∈ rest := by
                have : _ ∈ timersOf i rest := h2.symm.subset (List.mem_singleton_self _)
                exact (List.mem_filter.mp this).1
              have := hs.1 _ hm
              simp at this
          · obtain ⟨h1, h2⟩ := perm_single p
            simp only [Timer.mk.injEq, and_true] at h1
            subst h1
            refine Or.inr (Or.inr (Or.inl ⟨?_, by rw [e]; rfl, le_refl _⟩))
            have := timersOf_insert_of_id (i := i)
              (x := { due := t + 4000 + 300, callback := NotifCallback.remove i }) rest rfl
            rw [h2] at this
            exact this
          · have := (perm_single p).1
            simp at this
          · simp at p
      · refine ⟨n, ?_, ?_⟩
        · simp [getElem?_modifyAt, hik, hn]
        · apply ph.mono _ hge
          rw [timersOf_cons_of_ne rest (by simpa [NotifCallback.id] using Ne.symm hik)]
          exact timersOf_insert_of_ne rest (by simpa [NotifCallback.id] using Ne.symm hik)
  | remove k =>
    simp only [runNotif]
    refine ⟨by simpa [length_modifyAt] using inv.len, hs.2, hs.1, ?_, ?_⟩
    · simpa [length_modifyAt] using hids
    · intro i c t hi
      obtain ⟨n, hn, ph⟩ := hph i c t hi
      by_cases hik : i = k
      · subst hik
        refine ⟨{ n with attached := false }, ?_, ?_⟩
        · simp [getElem?_modifyAt, hn]
        · rw [NotifPhase, timersOf_cons_of_id (i := i)
            (x := { due := d, callback := NotifCallback.remove i }) rest rfl] at ph
          rcases ph with ⟨p, e, q⟩ | ⟨p, e, q⟩ | ⟨p, e, q⟩ | ⟨p, e, q⟩
          · rcases perm_pair p with ⟨h1, h2⟩ | ⟨h1, h2⟩
            · simp at h1
            · simp at h1
          · have := (perm_single p).1
            simp at this
          · obtain ⟨h1, h2⟩ := perm_single p
            simp only [Timer.mk.injEq, and_true] at h1
            subst h1
            exact Or.inr (Or.inr (Or.inr ⟨h2, by rw [e]; rfl, le_refl _⟩))
          · simp at p
      · refine ⟨n, ?_, ?_⟩
        · simp [getElem?_modifyAt, hik, hn]
        · apply ph.mono _ hge
          rw [timersOf_cons_of_ne rest (by simpa [NotifCallback.id] using Ne.symm hik)]

theorem show_preserves (l : NotifLoop) (es : List (NotifCall × Nat)) (c : NotifCall)
    (inv : NotifInv l es) :
    NotifInv (showNotification c.message c.type l) (es ++ [(c, l.now)]) := by
  have hnone : timersOf l.page.length l.timers = [] := by
    rw [timersOf, List.filter_eq_nil_iff]
    intro x hx
    have := inv.ids x hx
    simp only [decide_eq_true_eq]
    omega
  simp only [showNotification, setTimeout]
  refine ⟨?_, ?_, ?_, ?_, ?_⟩
  · simp [inv.len]
  · exact insertTimer_sorted _ _ (insertTimer_sorted _ _ inv.sorted)
  · intro y hy
    rcases (mem_insertTimer _ y _).mp hy with rfl | hy
    · simp
    · rcases (mem_insertTimer _ y _).mp hy with rfl | hy
      · simp
      · exact inv.due_ge y hy
  · intro y hy
    simp only [List.length_append, List.length_singleton]
    rcases (mem_insertTimer _ y _).mp hy with rfl | hy
    · simp [NotifCallback.id]
    · rcases (mem_insertTimer _ y _).mp hy with rfl | hy
      · simp [NotifCallback.id]
      · exact Nat.lt_succ_of_lt (inv.ids y hy)
  · intro i c' t hi
    by_cases hlt : i < es.length
    · rw [List.getElem?_append_left hlt] at hi
      obtain ⟨n, hn, ph⟩ := inv.phase i c' t hi
      refine ⟨n, ?_, ?_⟩
      · rw [List.getElem?_append_left (by rw [inv.len]; exact hlt)]
        exact hn
      · apply ph.mono _ (le_refl _)
        have hne : l.page.length ≠ i := by rw [inv.len]; omega
        exact (timersOf_insert_of_ne _ (by simpa [NotifCallback.id] using hne)).trans
          (timersOf_insert_of_ne _ (by simpa [NotifCallback.id] using hne))
    · have hi' : i = es.length := by
        have : i < (es ++ [(c, l.now)]).length := by
          by_contra hc
          rw [List.getElem?_eq_none (by omega)] at hi
          exact Option.noConfusion hi
        simp only [List.length_append, List.length_singleton] at this
        omega
      subst hi'
      rw [List.getElem?_append_right (le_refl _)] at hi
      simp only [Nat.sub_self, List.getElem?_cons_zero, Option.some.injEq, Prod.mk.injEq] at hi
      obtain ⟨rfl, rfl⟩ := hi
      refine ⟨baseNotification c "translateX(400px)" true, ?_, ?_⟩
      · rw [List.getElem?_append_right (by rw [inv.len])]
        simp [inv.len, baseNotification]
      · refine Or.inl ⟨?_, rfl, le_refl _⟩
        rw [← inv.len]
        have h1 := timersOf_insert_of_id (i := l.page.length)
          (x := { due := l.now + 4000, callback := NotifCallback.slideOut l.page.length })
          (insertTimer { due := l.now + 100, callback := NotifCallback.slideIn l.page.length }
            l.timers) rfl
        have h2 := timersOf_insert_of_id (i := l.page.length)
          (x := { due := l.now + 100, callback := NotifCallback.slideIn l.page.length })
          l.timers rfl
        rw [hnone] at h2
        exact (h1.trans (List.Perm.cons _ h2)).trans (List.Perm.swap _ _ _)

theorem notifMeasure_insert (x : Timer NotifCallback) (ts : List (Timer NotifCallback)) :
    notifMeasure (insertTimer x ts) = notifWeight x + notifMeasure ts := by
  unfold notifMeasure
  rw [((insertTimer_perm x ts).map notifWeight).sum_eq]
  simp

theorem notifMeasure_le (ts : List (Timer NotifCallback)) :
    notifMeasure ts ≤ 2 * ts.length := by
  induction ts with
  | nil => simp [notifMeasure]
  | cons x xs ih =>
    have hx : notifWeight x ≤ 2 := by
      unfold notifWeight
      split <;> omega
    simp only [notifMeasure, List.map_cons, List.sum_cons, List.length_cons] at ih ⊢
    omega

theorem clock_preserves (l : NotifLoop) (es : List (NotifCall × Nat)) (T : Nat)
    (inv : NotifInv l es) (h : ∀ x ∈ l.timers, T ≤ x.due) :
    NotifInv { l with now := max l.now T } es := by
  refine ⟨inv.len, inv.sorted, ?_, inv.ids, ?_⟩
  · intro x hx
    exact max_le (inv.due_ge x hx) (h x hx)
  · intro i c t hi
    obtain ⟨n, hn, ph⟩ := inv.phase i c t hi
    exact ⟨n, hn, ph.mono (List.Perm.refl _) (le_max_left _ _)⟩

theorem advance_spec (fuel T : Nat) (l : NotifLoop) (es : List (NotifCall × Nat))
    (inv : NotifInv l es) (hf : notifMeasure l.timers < fuel) :
    NotifInv (advanceFuel runNotif fuel T l) es ∧
    (advanceFuel runNotif fuel T l).now = max l.now T ∧
    ∀ x ∈ (advanceFuel runNotif fuel T l).timers, T < x.due := by
  induction fuel generalizing l with
  | zero => omega
  | succ f ih =>
    unfold advanceFuel
    split
    · rename_i hl
      refine ⟨clock_preserves l es T inv ?_, rfl, ?_⟩
      · intro x hx; rw [hl] at hx; exact absurd hx (List.not_mem_nil _)
      · intro x hx
        simp only [hl] at hx
        exact absurd hx (List.not_mem_nil _)
    · rename_i x rest hl
      have hs := inv.sorted
      rw [hl, List.pairwise_cons] at hs
      have hge : l.now ≤ x.due := inv.due_ge x (by rw [hl]; exact List.mem_cons_self _ _)
      split
      · rename_i hx
        have inv' := fire_preserves l es x rest hl inv
        have hm : notifMeasure
            (runNotif x.callback { l with now := max l.now x.due, timers := rest }).timers < f := by
          rw [hl] at hf
          simp only [notifMeasure, List.map_cons, List.sum_cons] at hf
          obtain ⟨d, cb⟩ := x
          cases cb with
          | slideIn k =>
            simp only [runNotif, notifMeasure]
            simp only [notifWeight] at hf
            omega
          | slideOut k =>
            simp only [runNotif, setTimeout, notifMeasure_insert]
            simp only [notifWeight] at hf ⊢
            simp only [notifMeasure]
            omega
          | remove k =>
            simp only [runNotif, notifMeasure]
            simp only [notifWeight] at hf
            omega
        obtain ⟨a, b, c⟩ := ih _ inv' hm
        refine ⟨a, ?_, c⟩
        rw [b]
        have hnow : (runNotif x.callback { l with now := max l.now x.due, timers := rest }).now
            = max l.now x.due := by
          obtain ⟨d, cb⟩ := x
          cases cb <;> rfl
        rw [hnow, max_eq_right hge, max_eq_right hx, max_eq_right (le_trans hge hx)]
      · rename_i hx
        have hall : ∀ y ∈ l.timers, T < y.due := by
          intro y hy
          rw [hl] at hy
          rcases List.mem_cons.mp hy with rfl | hy
          · omega
          · have := hs.1 y hy
            omega
        refine ⟨clock_preserves l es T inv (fun y hy => le_of_lt (hall y hy)), rfl, ?_⟩
        intro y hy
        exact hall y hy

theorem advanceNotif_spec (T : Nat) (l : NotifLoop) (es : List (NotifCall × Nat))
    (inv : NotifInv l es) :
    NotifInv (advanceNotif T l) es ∧ (advanceNotif T l).now = max l.now T ∧
    ∀ x ∈ (advanceNotif T l).timers, T < x.due :=
  advance_spec _ T l es inv (Nat.lt_succ_of_le (notifMeasure_le l.timers))

theorem fresh_inv (t0 : Nat) : NotifInv (NotifLoop.fresh t0) [] := by
  refine ⟨rfl, List.Pairwise.nil, ?_, ?_, ?_⟩
  · intro x hx; exact absurd hx (List.not_mem_nil _)
  · intro x hx; exact absurd hx (List.not_mem_nil _)
  · intro i c t hi
    simp at hi

theorem showNotification_now (m ty : String) (l : NotifLoop) :
    (showNotification m ty l).now = l.now := rfl

theorem runCalls_inv (cs : List NotifCall) (l : NotifLoop) (es : List (NotifCall × Nat))
    (inv : NotifInv l es) :
    NotifInv (runCalls cs l) (es ++ callsWithTimes l.now cs) ∧
    (runCalls cs l).now = l.now + (cs.map NotifCall.gap).sum := by
  induction cs generalizing l es with
  | nil =>
    simpa [runCalls, callsWithTimes, callTimes] using inv
  | cons c cs ih =>
    obtain ⟨a1, a2, _⟩ := advanceNotif_spec (l.now + c.gap) l es inv
    have hnow : (advanceNotif (l.now + c.gap) l).now = l.now + c.gap := by
      rw [a2]; exact max_eq_right (Nat.le_add_right _ _)
    have b := show_preserves _ es c a1
    rw [hnow] at b
    obtain ⟨i1, i2⟩ := ih _ _ b
    rw [showNotification_now, hnow] at i1 i2
    simp only [runCalls]
    refine ⟨?_, ?_⟩
    · simpa [callsWithTimes, callTimes] using i1
    · rw [i2]
      simp only [List.map_cons, List.sum_cons]
      omega

theorem phase_created_le {ts : List (Timer NotifCallback)} {now i : Nat} {c : NotifCall}
    {t : Nat} {n : Notification} (h : NotifPhase ts now i c t n) : t ≤ now := by
  rcases h with ⟨_, _, q⟩ | ⟨_, _, q⟩ | ⟨_, _, q⟩ | ⟨_, _, q⟩ <;> omega

theorem mem_of_perm_timersOf {ts : List (Timer NotifCallback)} {i : Nat}
    {x : Timer NotifCallback} {F : List (Timer NotifCallback)}
    (p : List.Perm (timersOf i ts) F) (hx : x ∈ F) : x ∈ ts :=
  (List.mem_filter.mp (p.symm.subset hx)).1

theorem phase_settled {ts : List (Timer NotifCallback)} {now i : Nat} {c : NotifCall}
    {t : Nat} {n : Notification} (h : NotifPhase ts now i c t n)
    (hd : ∀ x ∈ ts, now < x.due) : n = expectedNotification now c t := by
  unfold expectedNotification
  rcases h with ⟨p, e, q⟩ | ⟨p, e, q⟩ | ⟨p, e, q⟩ | ⟨p, e, q⟩
  · have := hd _ (mem_of_perm_timersOf p (List.mem_cons_self _ _))
    simp only at this
    rw [e, if_neg (by omega), decide_eq_true (by omega)]
  · have := hd _ (mem_of_perm_timersOf p (List.mem_cons_self _ _))
    simp only at this
    rw [e, if_pos ⟨q, this⟩, decide_eq_true (by omega)]
  · have := hd _ (mem_of_perm_timersOf p (List.mem_cons_self _ _))
    simp only at this
    rw [e, if_neg (by omega), decide_eq_true this]
  · rw [e, if_neg (by omega), decide_eq_false (by omega)]

theorem phase_pending {ts : List (Timer NotifCallback)} {now i : Nat} {c : NotifCall}
    {t : Nat} {n : Notification} (h : NotifPhase ts now i c t n)
    (x : Timer NotifCallback) (hx : x ∈ timersOf i ts) : x.due ≤ t + 4300 := by
  rcases h with ⟨p, e, q⟩ | ⟨p, e, q⟩ | ⟨p, e, q⟩ | ⟨p, e, q⟩
  · have := p.subset hx
    simp only [List.mem_cons, List.mem_singleton, List.not_mem_nil, or_false] at this
    rcases this with rfl | rfl <;> simp
  · have := p.subset hx
    simp only [List.mem_singleton] at this
    subst this; simp
  · have := p.subset hx
    simp only [List.mem_singleton] at this
    subst this; simp
  · rw [p] at hx
    exact absurd hx (List.not_mem_nil _)

/-- C2. For every sequence of `showNotification` calls, whatever their arguments and the
gaps between them, and every later moment (`wait` ms after the last call): the clock has
advanced by the gaps and the wait; the page holds one element per call, and each element is
exactly in the state that its own call time and arguments prescribe (slid in from 100 ms,
slid out from 4000 ms, removed from 4300 ms after its own call), whatever the other calls
were; and once 4300 ms have passed since the last call, no timer is pending and no
notification element is attached. -/
theorem notifications_independent (t0 : Nat) (cs : List NotifCall) (wait : Nat) :
    (runAndWait t0 cs wait).now = t0 + (cs.map NotifCall.gap).sum + wait ∧
    (runAndWait t0 cs wait).page
      = (callsWithTimes t0 cs).map
          (fun e => expectedNotification (runAndWait t0 cs wait).now e.1 e.2) ∧
    (4300 ≤ wait →
      (runAndWait t0 cs wait).timers = [] ∧
      ∀ n ∈ (runAndWait t0 cs wait).page, n.attached = false) := by
  obtain ⟨inv1, now1⟩ := runCalls_inv cs (NotifLoop.fresh t0) [] (fresh_inv t0)
  simp only [List.nil_append] at inv1
  have hn0 : (NotifLoop.fresh t0).now = t0 := rfl
  rw [hn0] at inv1 now1
  obtain ⟨inv2, now2, due2⟩ := advanceNotif_spec
    ((runCalls cs (NotifLoop.fresh t0)).now + wait) (runCalls cs (NotifLoop.fresh t0)) _ inv1
  rw [max_eq_right (Nat.le_add_right _ _)] at now2
  change NotifInv (runAndWait t0 cs wait) _ at inv2
  change (runAndWait t0 cs wait).now = _ at now2
  change ∀ x ∈ (runAndWait t0 cs wait).timers, _ at due2
  rw [← now2] at due2
  have hpage : (runAndWait t0 cs wait).page
      = (callsWithTimes t0 cs).map
          (fun e => expectedNotification (runAndWait t0 cs wait).now e.1 e.2) := by
    apply List.ext_getElem?
    intro i
    rw [List.getElem?_map]
    cases hi : (callsWithTimes t0 cs)[i]? with
    | none =>
      rw [List.getElem?_eq_none_iff] at hi
      rw [Option.map_none', List.getElem?_eq_none_iff, inv2.len]
      exact hi
    | some e =>
      obtain ⟨c, t⟩ := e
      obtain ⟨n, hn, ph⟩ := inv2.phase i c t hi
      rw [hn, Option.map_some', phase_settled ph due2]
  have hcreated : ∀ e ∈ callsWithTimes t0 cs, e.2 ≤ (runCalls cs (NotifLoop.fresh t0)).now := by
    intro e he
    obtain ⟨i, hi, rfl⟩ := List.getElem_of_mem he
    obtain ⟨n, _, ph⟩ := inv1.phase i _ _ (List.getElem?_eq_getElem hi)
    exact phase_created_le ph
  refine ⟨by rw [now2, now1], hpage, ?_⟩
  intro hw
  constructor
  · rw [List.eq_nil_iff_forall_not_mem]
    intro x hx
    have hk := inv2.ids x hx
    rw [inv2.len] at hk
    obtain ⟨n, _, ph⟩ := inv2.phase x.callback.id _ _ (List.getElem?_eq_getElem hk)
    have h1 := phase_pending ph x (List.mem_filter.mpr ⟨hx, by simp⟩)
    have h2 := hcreated _ (List.getElem_mem hk)
    have h3 := due2 x hx
    simp only [List.get_eq_getElem] at h1 h2
    omega
  · intro n hn
    rw [hpage] at hn
    obtain ⟨e, he, rfl⟩ := List.mem_map.mp hn
    have h2 := hcreated e he
    simp only [expectedNotification, baseNotification, decide_eq_false_iff_not]
    omega

/-- C2 at two overlapping calls, 4300 ms after the second one. -/
theorem notifications_independent_witness :
    4300 ≤ 4300 ∧
    ((runAndWait 0 [⟨5, "a", "info"⟩, ⟨50, "b", "error"⟩] 4300).timers = [] ∧
     ∀ n ∈ (runAndWait 0 [⟨5, "a", "info"⟩, ⟨50, "b", "error"⟩] 4300).page,
       n.attached = false) :=
  ⟨by decide,
    (notifications_independent 0 [⟨5, "a", "info"⟩, ⟨50, "b", "error"⟩] 4300).2.2 (by decide)⟩

theorem advance_page (T : Nat) (l : NotifLoop) (es : List (NotifCall × Nat))
    (inv : NotifInv l es) (hT : l.now ≤ T) :
    NotifInv (advanceNotif T l) es ∧ (advanceNotif T l).now = T ∧
    (advanceNotif T l).page = es.map (fun e => expectedNotification T e.1 e.2) := by
  obtain ⟨inv2, now2, due2⟩ := advanceNotif_spec T l es inv
  rw [max_eq_right hT] at now2
  refine ⟨inv2, now2, ?_⟩
  apply List.ext_getElem?
  intro i
  rw [List.getElem?_map]
  cases hi : es[i]? with
  | none =>
    rw [List.getElem?_eq_none_iff] at hi
    rw [Option.map_none', List.getElem?_eq_none_iff, inv2.len]
    exact hi
  | some e =>
    obtain ⟨c, t⟩ := e
    obtain ⟨n, hn, ph⟩ := inv2.phase i c t hi
    have due3 : ∀ x ∈ (advanceNotif T l).timers, (advanceNotif T l).now < x.due := by
      intro x hx
      rw [now2]
      exact due2 x hx
    rw [hn, Option.map_some', phase_settled ph due3, now2]

theorem show_fresh_inv (message type : String) (t : Nat) :
    NotifInv (showNotification message type (NotifLoop.fresh t))
      [(({ gap := 0, message := message, type := type } : NotifCall), t)] := by
  have := show_preserves (NotifLoop.fresh t) [] { gap := 0, message := message, type := type }
    (fresh_inv t)
  simpa [NotifLoop.fresh] using this

/-- C1 as stated fails: for `showNotification("X", "success")` called at time 0, the element
is already sliding out at 4099 ms (it is not still in the visible transform until 4100 ms)
and already detached at 4300 ms and at 4399 ms (its lifetime is not 4400 ms). -/
theorem notification_lifetime_not_4400 :
    ¬ ((advanceNotif 4099 (showNotification "X" "success" (NotifLoop.fresh 0))).page.map
          (fun n => n.transform) = ["translateX(0)"]) ∧
    ¬ ((advanceNotif 4300 (showNotification "X" "success" (NotifLoop.fresh 0))).page.map
          (fun n => n.attached) = [true]) ∧
    ¬ ((advanceNotif 4399 (showNotification "X" "success" (NotifLoop.fresh 0))).page.map
          (fun n => n.attached) = [true]) := by
  decide

/-- C1, amended. After `showNotification(message, type)` at time `t` on a page without
notifications, the created element is attached and off screen (`translateX(400px)`) up to
`t + 99`; it is in the visible transform `translateX(0)` from `t + 100` to `t + 3999`; it
starts to hide (`translateX(400px)`, still attached) at `t + 4000`, that is 3900 ms after it
became visible; and it is detached from `t + 4300` on, with no timer left: its lifetime from
insertion to removal is 4300 ms.  The same holds when time is advanced in three steps
(100 ms, then 3900 ms, then 300 ms). -/
theorem notification_lifecycle (message type : String) (t : Nat) :
    (∀ w, (advanceNotif (t + w) (showNotification message type (NotifLoop.fresh t))).page
      = [baseNotification ⟨0, message, type⟩
          (if 100 ≤ w ∧ w < 4000 then "translateX(0)" else "translateX(400px)")
          (decide (w < 4300))]) ∧
    (advanceNotif (t + 4300) (showNotification message type (NotifLoop.fresh t))).timers = [] ∧
    (advanceNotif (t + 100) (showNotification message type (NotifLoop.fresh t))).page
      = [baseNotification ⟨0, message, type⟩ "translateX(0)" true] ∧
    (advanceNotif (t + 4000)
      (advanceNotif (t + 100) (showNotification message type (NotifLoop.fresh t)))).page
      = [baseNotification ⟨0, message, type⟩ "translateX(400px)" true] ∧
    (advanceNotif (t + 4300) (advanceNotif (t + 4000)
      (advanceNotif (t + 100) (showNotification message type (NotifLoop.fresh t))))).page
      = [baseNotification ⟨0, message, type⟩ "translateX(400px)" false] := by
  have inv0 := show_fresh_inv message type t
  have hnow0 : (showNotification message type (NotifLoop.fresh t)).now = t := rfl
  have key : ∀ w, (advanceNotif (t + w) (showNotification message type (NotifLoop.fresh t))).page
      = [baseNotification ⟨0, message, type⟩
          (if 100 ≤ w ∧ w < 4000 then "translateX(0)" else "translateX(400px)")
          (decide (w < 4300))] := by
    intro w
    rw [(advance_page (t + w) _ _ inv0 (by rw [hnow0]; omega)).2.2]
    simp only [List.map_cons, List.map_nil, expectedNotification]
    have e1 : (t + 100 ≤ t + w ∧ t + w < t + 4000) ↔ (100 ≤ w ∧ w < 4000) := by omega
    have e2 : (t + w < t + 4300) ↔ (w < 4300) := by omega
    simp only [e1, e2]
  obtain ⟨i1, n1, p1⟩ := advance_page (t + 100) _ _ inv0 (by rw [hnow0]; omega)
  obtain ⟨i2, n2, p2⟩ := advance_page (t + 4000) _ _ i1 (by rw [n1]; omega)
  obtain ⟨i3, n3, p3⟩ := advance_page (t + 4300) _ _ i2 (by rw [n2]; omega)
  refine ⟨key, ?_, ?_, ?_, ?_⟩
  · have h := advanceNotif_spec (t + 4300) _ _ inv0
    obtain ⟨inv2, now2, due2⟩ := h
    rw [List.eq_nil_iff_forall_not_mem]
    intro x hx
    have hk := inv2.ids x hx
    rw [inv2.len] at hk
    simp only [List.length_singleton, Nat.lt_one_iff] at hk
    obtain ⟨n, _, ph⟩ := inv2.phase x.callback.id _ _
      (by rw [hk]; rfl : _ = some (({ gap := 0, message := message, type := type } : NotifCall), t))
    have h1 := phase_pending ph x (List.mem_filter.mpr ⟨hx, by simp⟩)
    have h3 := due2 x hx
    omega
  · rw [key 100]; simp
  · rw [p2]
    simp [expectedNotification]
  · rw [p3]
    simp [expectedNotification]


/-! ## Typing effect -/

theorem split_ne_nil (sep : Char) (cs : List Char) : split sep cs ≠ [] := by
  cases cs with
  | nil => simp [split]
  | cons c cs =>
    unfold split
    split
    · simp
    · split <;> simp

theorem advance_typeWord_step (cfg : Config) (fuel T now d : Nat) (page : TypingState)
    (hT : d ≤ T) :
    advanceFuel (runTyping cfg) (fuel + 1) T
        { now := now, timers := [{ due := d, callback := TypingCallback.typeWord }], page := page }
      = advanceFuel (runTyping cfg) fuel T
          (typeWord cfg { now := max now d, timers := [], page := page }) := by
  simp only [advanceFuel, hT, if_true, runTyping]

theorem advance_typing_stop (cfg : Config) (fuel T now d : Nat) (cb : TypingCallback)
    (page : TypingState) (hT : ¬ d ≤ T) :
    advanceFuel (runTyping cfg) (fuel + 1) T
        { now := now, timers := [{ due := d, callback := cb }], page := page }
      = { now := max now T, timers := [{ due := d, callback := cb }], page := page } := by
  simp only [advanceFuel, hT, if_false]

theorem typeWord_char (cfg : Config) (now : Nat) (text : List Char) (border : String)
    (ws : List (List Char)) (i j : Nat) (hi : i < ws.length)
    (hj : j < (ws.getD i []).length) :
    typeWord cfg { now := now, timers := [],
                   page := { heroTitle := { textContent := text, borderRight := border },
                             words := ws, wordIndex := i, charIndex := j } }
      = { now := now,
          timers := [{ due := now + cfg.typingSpeed, callback := TypingCallback.typeWord }],
          page := { heroTitle := { textContent := text ++ ((ws.getD i []).drop j).take 1,
                                   borderRight := border },
                    words := ws, wordIndex := i, charIndex := j + 1 } } := by
  simp only [typeWord, hi, hj, if_true, setTimeout, insertTimer]

theorem typeWord_chars (cfg : Config) (hs : 0 < cfg.typingSpeed) (ws : List (List Char))
    (i : Nat) (hi : i < ws.length) (pre : List Char) (border : String) :
    ∀ (n j d fuel T now : Nat),
      now ≤ d → j + n < (ws.getD i []).length → n + 1 < fuel →
      d + n * cfg.typingSpeed ≤ T → T < d + (n + 1) * cfg.typingSpeed →
      (advanceFuel (runTyping cfg) fuel T
        { now := now, timers := [{ due := d, callback := TypingCallback.typeWord }],
          page := { heroTitle := { textContent := pre ++ (ws.getD i []).take j,
                                   borderRight := border },
                    words := ws, wordIndex := i, charIndex := j } }).page.heroTitle.textContent
        = pre ++ (ws.getD i []).take (j + n + 1) := by
  intro n
  induction n with
  | zero =>
    intro j d fuel T now hnow hj hf h1 h2
    obtain ⟨f, rfl⟩ : ∃ f, fuel = f + 2 := ⟨fuel - 2, by omega⟩
    have hj' : j < (ws.getD i []).length := by omega
    have hT : d ≤ T := by omega
    have hT2 : ¬ max now d + cfg.typingSpeed ≤ T := by
      rw [max_eq_right hnow]; omega
    rw [advance_typeWord_step cfg _ T now d _ hT, typeWord_char cfg _ _ _ ws i j hi hj',
      advance_typing_stop cfg f T _ _ _ _ hT2]
    simp only [Nat.add_zero, List.append_assoc, List.take_add]
  | succ n ih =>
    intro j d fuel T now hnow hj hf h1 h2
    obtain ⟨f, rfl⟩ : ∃ f, fuel = f + 1 := ⟨fuel - 1, by omega⟩
    have hj' : j < (ws.getD i []).length := by omega
    have e1 : (n + 1) * cfg.typingSpeed = cfg.typingSpeed + n * cfg.typingSpeed := by ring
    have e2 : (n + 1 + 1) * cfg.typingSpeed
        = cfg.typingSpeed + (n + 1) * cfg.typingSpeed := by ring
    have hT : d ≤ T := by omega
    have key := ih (j + 1) (max now d + cfg.typingSpeed) f T (max now d)
      (by omega) (by omega) (by omega)
      (by rw [max_eq_right hnow]; omega) (by rw [max_eq_right hnow]; omega)
    rw [advance_typeWord_step cfg _ T now d _ hT, typeWord_char cfg _ _ _ ws i j hi hj']
    rw [show j + (n + 1) + 1 = j + 1 + n + 1 by omega, ← key]
    simp only [List.append_assoc, List.take_add]

theorem typedText_first_word (cfg : Config) (title : HeroTitle) (t0 k r : Nat)
    (hs : 0 < cfg.typingSpeed) (hk : k < (firstWord title).length)
    (hr : r < cfg.typingSpeed) :
    typedText cfg title t0 (2000 + k * cfg.typingSpeed + r)
      = some ((firstWord title).take (k + 1)) := by
  obtain ⟨w0, rest, hws⟩ := List.exists_cons_of_ne_nil (split_ne_nil ' ' title.textContent)
  have hfw : firstWord title = w0 := by simp [firstWord, hws]
  rw [hfw] at hk ⊢
  have hget : (w0 :: rest).getD 0 [] = w0 := rfl
  have key := typeWord_chars cfg hs (w0 :: rest) 0 (Nat.succ_pos _) [] "2px solid white"
    k 0 (t0 + 2000) (w0.length + 1 + ((rest.map (fun w => w.length + 1)).sum) + 2 + 1)
    (t0 + (2000 + k * cfg.typingSpeed + r)) t0
    (by omega) (by rw [hget]; omega) (by omega) (by omega)
    (by
      have : (k + 1) * cfg.typingSpeed = k * cfg.typingSpeed + cfg.typingSpeed := by ring
      omega)
  rw [hget] at key
  simp only [List.take_zero, List.append_nil, List.nil_append, Nat.zero_add] at key
  simp only [typedText, initTypingEffect, Option.map_some', setTimeout, insertTimer,
    advanceTyping, typingFuel, hws, List.drop_zero, List.map_cons, List.sum_cons]
  rw [← key]

theorem typedText_before_start (cfg : Config) (title : HeroTitle) (t0 e : Nat)
    (he : e < 2000) : typedText cfg title t0 e = some [] := by
  simp only [typedText, initTypingEffect, Option.map_some', setTimeout, insertTimer,
    advanceTyping]
  rw [advance_typing_stop cfg _ _ _ _ _ _ (by omega)]

/-- C10 as stated fails: for the title "Hello World" at 100 ms per character, 500 ms after
the first `typeWord` step (2500 ms after `initTypingEffect()`) the text is "Hello " with the
word-boundary space, six code units and not the five of "Hello"; and 500 ms after
`initTypingEffect()` itself nothing has been typed yet. -/
theorem typing_at_500_not_hello :
    typedText config { textContent := "Hello World".toList, borderRight := "" } 0 2500
      = some "Hello ".toList ∧
    ¬ (typedText config { textContent := "Hello World".toList, borderRight := "" } 0 2500
      = some "Hello".toList) ∧
    ¬ (typedText config { textContent := "Hello World".toList, borderRight := "" } 0 500
      = some "Hello".toList) := by
  decide

/-- C10, amended. The first `typeWord` step runs 2000 ms after `initTypingEffect()`; before
that the title is empty.  For every title and every positive `typingSpeed`, the `k + 1`-th
character of the first word is appended `k * typingSpeed` ms after the first step, and from
then until the next step the title shows exactly the first `k + 1` characters of that word.
For "Hello World" at 100 ms: characters 1 to 5 of "Hello" appear 0, 100, 200, 300 and 400 ms
after the first step, "Hello" is shown from 400 ms up to 499 ms after it, and at 500 ms the
space of the word boundary is appended, after which the next character comes 200 ms later. -/
theorem typing_schedule (cfg : Config) (title : HeroTitle) (t0 k r : Nat) :
    (0 < cfg.typingSpeed → k < (firstWord title).length → r < cfg.typingSpeed →
      typedText cfg title t0 (2000 + k * cfg.typingSpeed + r)
        = some ((firstWord title).take (k + 1))) ∧
    (r < 2000 → typedText cfg title t0 r = some []) ∧
    (∀ i < 5, typedText config { textContent := "Hello World".toList, borderRight := "" } 0
        (2000 + i * 100) = some ("Hello".toList.take (i + 1))) ∧
    typedText config { textContent := "Hello World".toList, borderRight := "" } 0 2499
      = some "Hello".toList ∧
    typedText config { textContent := "Hello World".toList, borderRight := "" } 0 2500
      = some "Hello ".toList ∧
    typedText config { textContent := "Hello World".toList, borderRight := "" } 0 2699
      = some "Hello ".toList ∧
    typedText config { textContent := "Hello World".toList, borderRight := "" } 0 2700
      = some "Hello W".toList := by
  refine ⟨fun hs hk hr => typedText_first_word cfg title t0 k r hs hk hr,
    fun hr => typedText_before_start cfg title t0 r hr, by decide, by decide, by decide,
    by decide, by decide⟩

/-- C10, amended, at the third character of "Hello World", 50 ms after it was typed. -/
theorem typing_schedule_witness :
    0 < config.typingSpeed ∧
    2 < (firstWord { textContent := "Hello World".toList, borderRight := "" }).length ∧
    50 < config.typingSpeed ∧
    typedText config { textContent := "Hello World".toList, borderRight := "" } 7
        (2000 + 2 * config.typingSpeed + 50)
      = some ((firstWord { textContent := "Hello World".toList, borderRight := "" }).take (2 + 1)) :=
  ⟨by decide, by decide, by decide,
    (typing_schedule config { textContent := "Hello World".toList, borderRight := "" } 7 2 50).1
      (by decide) (by decide) (by decide)⟩


/-! ## Counters -/

theorem runCounter_succ (target : Nat) (suffix : String) (n : Nat) (c : Counter) :
    runCounter target suffix (n + 1) c
      = if (runCounter target suffix n c).running
        then counterTick target suffix (runCounter target suffix n c)
        else runCounter target suffix n c := by
  induction n generalizing c with
  | zero =>
    simp only [runCounter]
  | succ n ih =>
    rw [runCounter]
    by_cases h : c.running
    · rw [if_pos h, ih (counterTick target suffix c)]
      simp only [runCounter, if_pos h]
    · rw [if_neg h]
      simp only [runCounter, if_neg h]

theorem rnd_upper {x : ℚ} (hx : 0 < x) : rnd x ≤ x * (1 + 1 / 9007199254740992) := by
  rw [rnd_of_pos hx]
  have := (abs_le.mp (rndPos_error x hx)).2
  linarith

theorem rnd_lower {x : ℚ} (hx : 0 < x) : x * (1 - 1 / 9007199254740992) ≤ rnd x := by
  rw [rnd_of_pos hx]
  have := (abs_le.mp (rndPos_error x hx)).1
  linarith

theorem counterValue_nonneg (target k : Nat) : 0 ≤ counterValue target k := by
  cases k with
  | zero => exact le_refl _
  | succ k =>
    have hinc : 0 ≤ rnd ((target : ℚ) / 100) := rnd_nonneg (by positivity)
    cases k with
    | zero =>
      simp only [counterValue]
      exact rnd_nonneg (by linarith)
    | succ k =>
      rw [counterValue]
      apply rnd_nonneg
      have := counterValue_nonneg target (k + 1)
      linarith

theorem counterValue_upper (target : Nat) (ht : 0 < target) (k : Nat) :
    counterValue target k
      ≤ k * rnd ((target : ℚ) / 100) * (1 + 1 / 9007199254740992) ^ k := by
  have hT : (0 : ℚ) < (target : ℚ) / 100 := by
    have : (0 : ℚ) < target := by exact_mod_cast ht
    positivity
  have hinc := rnd_pos hT
  induction k with
  | zero => simp [counterValue]
  | succ k ih =>
    rw [counterValue]
    have h0 := counterValue_nonneg target k
    have hp : (1 : ℚ) ≤ (1 + 1 / 9007199254740992) ^ k := one_le_pow₀ (by norm_num)
    have h1 := rnd_upper (x := counterValue target k + rnd ((target : ℚ) / 100)) (by linarith)
    have h2 : counterValue target k + rnd ((target : ℚ) / 100)
        ≤ ((k + 1 : ℕ) : ℚ) * rnd ((target : ℚ) / 100) * (1 + 1 / 9007199254740992) ^ k := by
      have : rnd ((target : ℚ) / 100)
          ≤ rnd ((target : ℚ) / 100) * (1 + 1 / 9007199254740992) ^ k :=
        le_mul_of_one_le_right (le_of_lt hinc) hp
      push_cast
      linarith
    calc rnd (counterValue target k + rnd ((target : ℚ) / 100))
        ≤ (counterValue target k + rnd ((target : ℚ) / 100)) * (1 + 1 / 9007199254740992) := h1
      _ ≤ (((k + 1 : ℕ) : ℚ) * rnd ((target : ℚ) / 100) * (1 + 1 / 9007199254740992) ^ k)
            * (1 + 1 / 9007199254740992) :=
          mul_le_mul_of_nonneg_right h2 (by norm_num)
      _ = ((k + 1 : ℕ) : ℚ) * rnd ((target : ℚ) / 100)
            * (1 + 1 / 9007199254740992) ^ (k + 1) := by
          rw [pow_succ]; ring

theorem counterValue_lower (target : Nat) (ht : 0 < target) (k : Nat) :
    k * rnd ((target : ℚ) / 100) * (1 - 1 / 9007199254740992) ^ k
      ≤ counterValue target k := by
  have hT : (0 : ℚ) < (target : ℚ) / 100 := by
    have : (0 : ℚ) < target := by exact_mod_cast ht
    positivity
  have hinc := rnd_pos hT
  induction k with
  | zero => simp [counterValue]
  | succ k ih =>
    rw [counterValue]
    have h0 := counterValue_nonneg target k
    have hp : (1 - 1 / 9007199254740992 : ℚ) ^ k ≤ 1 :=
      pow_le_one₀ (by norm_num) (by norm_num)
    have h1 := rnd_lower (x := counterValue target k + rnd ((target : ℚ) / 100)) (by linarith)
    have h2 : ((k + 1 : ℕ) : ℚ) * rnd ((target : ℚ) / 100) * (1 - 1 / 9007199254740992) ^ k
        ≤ counterValue target k + rnd ((target : ℚ) / 100) := by
      have : rnd ((target : ℚ) / 100) * (1 - 1 / 9007199254740992) ^ k
          ≤ rnd ((target : ℚ) / 100) :=
        mul_le_of_le_one_right (le_of_lt hinc) hp
      push_cast
      linarith
    calc ((k + 1 : ℕ) : ℚ) * rnd ((target : ℚ) / 100)
            * (1 - 1 / 9007199254740992) ^ (k + 1)
        = (((k + 1 : ℕ) : ℚ) * rnd ((target : ℚ) / 100) * (1 - 1 / 9007199254740992) ^ k)
            * (1 - 1 / 9007199254740992) := by
          rw [pow_succ]; ring
      _ ≤ (counterValue target k + rnd ((target : ℚ) / 100)) * (1 - 1 / 9007199254740992) :=
          mul_le_mul_of_nonneg_right h2 (by norm_num)
      _ ≤ rnd (counterValue target k + rnd ((target : ℚ) / 100)) := h1

theorem counter_numeric_upper :
    (99 : ℚ) * (1 + 1 / 9007199254740992) ^ 100 < 100 := by
  norm_num

theorem counter_numeric_lower :
    (100 : ℚ) ≤ 101 * (1 - 1 / 9007199254740992) ^ 102 := by
  norm_num

theorem counterValue_lt_target (target : Nat) (ht : 0 < target) (k : Nat) (hk : k ≤ 99) :
    counterValue target k < (target : ℚ) := by
  have hTpos : (0 : ℚ) < target := by exact_mod_cast ht
  have hT : (0 : ℚ) < (target : ℚ) / 100 := by positivity
  have hinc := rnd_pos hT
  have hu := rnd_upper hT
  have h1 := counterValue_upper target ht k
  have hk' : (k : ℚ) ≤ 99 := by exact_mod_cast hk
  have hp : (1 + 1 / 9007199254740992 : ℚ) ^ k ≤ (1 + 1 / 9007199254740992) ^ 99 :=
    pow_le_pow_right₀ (by norm_num) hk
  have hp0 : (0 : ℚ) ≤ (1 + 1 / 9007199254740992) ^ k := by positivity
  have h2 : (k : ℚ) * rnd ((target : ℚ) / 100) * (1 + 1 / 9007199254740992) ^ k
      ≤ 99 * ((target : ℚ) / 100 * (1 + 1 / 9007199254740992))
          * (1 + 1 / 9007199254740992) ^ 99 := by
    apply mul_le_mul _ hp hp0 (by positivity)
    exact mul_le_mul hk' hu (le_of_lt hinc) (by norm_num)
  have h3 : 99 * ((target : ℚ) / 100 * (1 + 1 / 9007199254740992))
        * (1 + 1 / 9007199254740992) ^ 99
      = (target : ℚ) * ((99 : ℚ) * (1 + 1 / 9007199254740992) ^ 100) / 100 := by
    rw [pow_succ (1 + 1 / 9007199254740992 : ℚ) 99]; ring
  have h4 : (target : ℚ) * ((99 : ℚ) * (1 + 1 / 9007199254740992) ^ 100) / 100 < target := by
    have := counter_numeric_upper
    rw [div_lt_iff₀ (by norm_num)]
    exact mul_lt_mul_of_pos_left this hTpos
  linarith

theorem counterValue_101_ge_target (target : Nat) (ht : 0 < target) :
    (target : ℚ) ≤ counterValue target 101 := by
  have hTpos : (0 : ℚ) < target := by exact_mod_cast ht
  have hT : (0 : ℚ) < (target : ℚ) / 100 := by positivity
  have hl := rnd_lower hT
  have h1 := counterValue_lower target ht 101
  have h2 : (101 : ℚ) * ((target : ℚ) / 100 * (1 - 1 / 9007199254740992))
        * (1 - 1 / 9007199254740992) ^ 101
      ≤ ((101 : ℕ) : ℚ) * rnd ((target : ℚ) / 100) * (1 - 1 / 9007199254740992) ^ 101 := by
    apply mul_le_mul_of_nonneg_right _ (by positivity)
    push_cast
    exact mul_le_mul_of_nonneg_left hl (by norm_num)
  have h3 : (101 : ℚ) * ((target : ℚ) / 100 * (1 - 1 / 9007199254740992))
        * (1 - 1 / 9007199254740992) ^ 101
      = (target : ℚ) * ((101 : ℚ) * (1 - 1 / 9007199254740992) ^ 102) / 100 := by
    rw [pow_succ (1 - 1 / 9007199254740992 : ℚ) 101]; ring
  have h4 : (target : ℚ)
      ≤ (target : ℚ) * ((101 : ℚ) * (1 - 1 / 9007199254740992) ^ 102) / 100 := by
    have := counter_numeric_lower
    rw [le_div_iff₀ (by norm_num)]
    exact mul_le_mul_of_nonneg_left this (le_of_lt hTpos)
  linarith

theorem runCounter_current (target : Nat) (suffix : String) (c0 : Counter)
    (h0 : c0.current = 0) (n : Nat) :
    (runCounter target suffix n c0).running = true →
    (runCounter target suffix n c0).current = counterValue target n := by
  induction n with
  | zero => intro _; simpa [runCounter, counterValue] using h0
  | succ n ih =>
    rw [runCounter_succ]
    by_cases h : (runCounter target suffix n c0).running = true
    · rw [if_pos h]
      intro _
      have := ih h
      unfold counterTick
      simp only [this]
      split <;> rfl
    · rw [if_neg h]
      intro h'
      exact absurd h' h

theorem runCounter_running_early (target : Nat) (suffix : String) (c0 : Counter)
    (ht : 0 < target) (h0 : c0.current = 0) (hr : c0.running = true) (n : Nat) (hn : n ≤ 99) :
    (runCounter target suffix n c0).running = true := by
  induction n with
  | zero => simpa [runCounter] using hr
  | succ n ih =>
    have hrun := ih (by omega)
    have hcur := runCounter_current target suffix c0 h0 n hrun
    have hlt := counterValue_lt_target target ht (n + 1) hn
    rw [counterValue] at hlt
    rw [runCounter_succ, if_pos hrun]
    unfold counterTick
    simp only [hcur]
    rw [if_neg (not_le.mpr hlt)]

theorem runCounter_stopped_101 (target : Nat) (suffix : String) (c0 : Counter)
    (ht : 0 < target) (h0 : c0.current = 0) :
    (runCounter target suffix 101 c0).running = false := by
  rw [runCounter_succ]
  by_cases hrun : (runCounter target suffix 100 c0).running = true
  · have hcur := runCounter_current target suffix c0 h0 100 hrun
    have hge := counterValue_101_ge_target target ht
    rw [counterValue] at hge
    rw [if_pos hrun]
    unfold counterTick
    simp only [hcur]
    rw [if_pos hge]
  · rw [if_neg hrun]
    simpa using hrun

theorem runCounter_text (target : Nat) (suffix : String) (c0 : Counter)
    (hr : c0.running = true) (n : Nat) (hn : 1 ≤ n) :
    (runCounter target suffix n c0).textContent
      = if (runCounter target suffix n c0).running
        then toString ⌊(runCounter target suffix n c0).current⌋ ++ suffix
        else toString target ++ suffix := by
  induction n with
  | zero => omega
  | succ n ih =>
    rw [runCounter_succ]
    by_cases hrun : (runCounter target suffix n c0).running = true
    · rw [if_pos hrun]
      unfold counterTick
      simp only
      split <;> simp
    · rw [if_neg hrun]
      have hn' : 1 ≤ n := by
        rcases Nat.eq_zero_or_pos n with h | h
        · subst h
          simp [runCounter, hr] at hrun
        · exact h
      exact ih hn'

theorem runCounter_stays_stopped (target : Nat) (suffix : String) (c0 : Counter) (n m : Nat)
    (h : (runCounter target suffix n c0).running = false) :
    runCounter target suffix (n + m) c0 = runCounter target suffix n c0 := by
  induction m with
  | zero => rfl
  | succ m ih =>
    rw [← Nat.add_assoc, runCounter_succ, ih, h]
    simp

/-- C9 as stated fails: for target 80 and suffix "+" (the `.clients-count` counter) the
interval is still running after 100 ticks, showing "79+", and stops on tick 101. -/
theorem counter_80_not_100_ticks :
    (runCounter 80 "+" 100 (animateCounter "0")).running = true ∧
    (runCounter 80 "+" 100 (animateCounter "0")).textContent = "79+" ∧
    (runCounter 80 "+" 101 (animateCounter "0")).running = false ∧
    (runCounter 80 "+" 101 (animateCounter "0")).textContent = "80+" := by
  decide!

/-- C9, amended. For every positive integer target and every suffix: after each tick the
element shows an integer followed by the suffix, namely the floor of the running value while
the interval runs and the target itself once it has stopped; the interval is still running
after 99 ticks and has stopped after 101, so it stops on tick 100 or on tick 101 (ticks are
30 ms apart); from then on the text is exactly the target followed by the suffix.  For target
150 and suffix "+" it stops on tick 100 with "150+", after showing "148+" on tick 99. -/
theorem counter_animation (target : Nat) (suffix text0 : String) (ht : 0 < target) :
    (∀ k, k ≤ 99 → (runCounter target suffix k (animateCounter text0)).running = true) ∧
    (runCounter target suffix 101 (animateCounter text0)).running = false ∧
    (∀ k, 1 ≤ k →
      (runCounter target suffix k (animateCounter text0)).textContent
        = if (runCounter target suffix k (animateCounter text0)).running
          then toString ⌊(runCounter target suffix k (animateCounter text0)).current⌋ ++ suffix
          else toString target ++ suffix) ∧
    (∀ k, 101 ≤ k →
      (runCounter target suffix k (animateCounter text0)).textContent
        = toString target ++ suffix) ∧
    (runCounter 150 "+" 99 (animateCounter "0")).textContent = "148+" ∧
    (runCounter 150 "+" 100 (animateCounter "0")).running = false ∧
    (runCounter 150 "+" 100 (animateCounter "0")).textContent = "150+" ∧
    counterTickTime 100 = 3000 := by
  have hstop := runCounter_stopped_101 target suffix (animateCounter text0) ht rfl
  refine ⟨fun k hk => runCounter_running_early target suffix _ ht rfl rfl k hk, hstop,
    fun k hk => runCounter_text target suffix _ rfl k hk, ?_, by decide!, by decide!, by decide!,
    by decide⟩
  intro k hk
  obtain ⟨m, rfl⟩ : ∃ m, k = 101 + m := ⟨k - 101, by omega⟩
  rw [runCounter_stays_stopped target suffix _ 101 m hstop,
    runCounter_text target suffix _ rfl 101 (by omega), hstop]
  simp

/-- C9, amended, at target 150 with suffix "+". -/
theorem counter_animation_witness :
    0 < 150 ∧
    (runCounter 150 "+" 101 (animateCounter "0")).running = false ∧
    (∀ k, 101 ≤ k →
      (runCounter 150 "+" k (animateCounter "0")).textContent = toString 150 ++ "+") :=
  ⟨by decide, (counter_animation 150 "+" "0" (by decide)).2.1,
    (counter_animation 150 "+" "0" (by decide)).2.2.2.1⟩


/-! ## Menu flags -/

theorem toggle_inSync (s : MenuState) (h : s.inSync) : (toggleMobileMenu s).inSync := by
  rcases h with ⟨h1, h2, h3⟩ | ⟨h1, h2, h3⟩
  · right
    simp [toggleMobileMenu, MenuState.isClosed, h1, h2, h3]
  · left
    simp [toggleMobileMenu, MenuState.isOpen, h1, h2, h3]

theorem closeMobileMenuOutside_inSync (e : ClickEvent) (s : MenuState) (h : s.inSync) :
    (closeMobileMenuOutside e s).inSync := by
  unfold closeMobileMenuOutside
  split
  · right
    exact ⟨rfl, rfl, rfl⟩
  · exact h

theorem documentClick_inSync (e : ClickEvent) (s : MenuState) (h : s.inSync) :
    (documentClick e s).inSync := by
  unfold documentClick
  generalize s.docClickListeners = ls
  induction ls generalizing s with
  | nil => exact h
  | cons x xs ih =>
    simp only [List.foldl_cons]
    exact ih _ (closeMobileMenuOutside_inSync e s h)

theorem closeMobileMenu_isClosed (s : MenuState) : (closeMobileMenu s).isClosed :=
  ⟨rfl, rfl, rfl⟩

theorem apply_inSync (e : MenuEvent) (v : ResizeView) (h : v.menu.inSync) :
    (e.apply v).menu.inSync := by
  cases e with
  | toggle => exact toggle_inSync _ h
  | outsideHandler e => exact closeMobileMenuOutside_inSync e _ h
  | click e => exact documentClick_inSync e _ h
  | close => exact Or.inr (closeMobileMenu_isClosed _)
  | key name =>
    simp only [MenuEvent.apply, keydown]
    split
    · exact Or.inr (closeMobileMenu_isClosed _)
    · exact h
  | resize w h' =>
    simp only [MenuEvent.apply, resizeTo, handleResize]
    split
    · exact Or.inr (closeMobileMenu_isClosed _)
    · exact h

theorem foldl_apply_inSync (events : List MenuEvent) (v : ResizeView) (h : v.menu.inSync) :
    (events.foldl (fun v e => e.apply v) v).menu.inSync := by
  induction events generalizing v with
  | nil => exact h
  | cons e es ih =>
    simp only [List.foldl_cons]
    exact ih _ (apply_inSync e v h)

/-- C16. In every state reached from the page as loaded by any sequence of
`toggleMobileMenu`, `closeMobileMenuOutside` (any click target), clicks reaching `document`,
`closeMobileMenu`, key presses (`Escape` or other) and resizes, the flags `active` of the
hamburger, `active` of the menu and `menu-open` of the body are all set or all clear.
`closeMobileMenu` always ends in the closed state, changes nothing when applied a second
time, and leaves an already closed menu exactly as it is. -/
theorem menu_flags_in_sync (events : List MenuEvent) (s : MenuState) :
    ((menuAfter events).menu.hamburgerActive = (menuAfter events).menu.navMenuActive ∧
      (menuAfter events).menu.navMenuActive = (menuAfter events).menu.bodyMenuOpen) ∧
    (menuAfter events).menu.inSync ∧
    (closeMobileMenu s).isClosed ∧
    closeMobileMenu (closeMobileMenu s) = closeMobileMenu s ∧
    (s.isClosed → closeMobileMenu s = s) := by
  have h : (menuAfter events).menu.inSync :=
    foldl_apply_inSync events ResizeView.initial (Or.inr (by decide))
  refine ⟨?_, h, closeMobileMenu_isClosed s, rfl, ?_⟩
  · rcases h with ⟨h1, h2, h3⟩ | ⟨h1, h2, h3⟩
    · rw [h1, h2, h3]; exact ⟨rfl, rfl⟩
    · rw [h1, h2, h3]; exact ⟨rfl, rfl⟩
  · rintro ⟨h1, h2, h3⟩
    cases s
    simp only [closeMobileMenu] at *
    simp [h1, h2, h3]

/-- C16 at the menu closed again by `Escape` after one opening. -/
theorem menu_flags_in_sync_witness :
    (menuAfter [MenuEvent.toggle, MenuEvent.key "Escape"]).menu.isClosed ∧
    closeMobileMenu (menuAfter [MenuEvent.toggle, MenuEvent.key "Escape"]).menu
      = (menuAfter [MenuEvent.toggle, MenuEvent.key "Escape"]).menu :=
  ⟨by decide,
    (menu_flags_in_sync [] (menuAfter [MenuEvent.toggle, MenuEvent.key "Escape"]).menu).2.2.2.2
      (by decide)⟩


/-! ## Scroll handler -/

theorem ilog2_unique (x : ℚ) (hx : 0 < x) (e : Int) (h1 : pow2 e ≤ x) (h2 : x < pow2 (e + 1)) :
    ilog2 x = e := by
  obtain ⟨a, b⟩ := ilog2_spec x hx
  by_contra hne
  rcases lt_or_gt_of_ne hne with h | h
  · have := pow2_le_pow2 (show ilog2 x + 1 ≤ e by omega)
    linarith
  · have := pow2_le_pow2 (show e + 1 ≤ ilog2 x by omega)
    linarith

theorem pow2_pred (e : Int) : pow2 (e - 1) = pow2 e / 2 := by
  have h : pow2 e = pow2 (e - 1) * pow2 1 := by
    rw [← pow2_add]; congr 1; ring
  have h1 : pow2 1 = 2 := by norm_num [pow2_eq]
  rw [h, h1]
  field_simp

theorem rndPos_half (x : ℚ) (hx : 0 < x) : rndPos (x / 2) = rndPos x / 2 := by
  obtain ⟨a, b⟩ := ilog2_spec x hx
  have he : ilog2 (x / 2) = ilog2 x - 1 := by
    apply ilog2_unique _ (by positivity)
    · rw [pow2_pred]; linarith
    · rw [show ilog2 x - 1 + 1 = ilog2 x + 1 - 1 by ring, pow2_pred]; linarith
  have hu := pow2_pos (ilog2 x - 52)
  unfold rndPos
  simp only
  rw [he, show ilog2 x - 1 - 52 = ilog2 x - 52 - 1 by ring, pow2_pred]
  have hq : x / 2 / (pow2 (ilog2 x - 52) / 2) = x / pow2 (ilog2 x - 52) := by
    field_simp
  rw [hq]
  ring

theorem rnd_half (x : ℚ) : rnd (x / 2) = rnd x / 2 := by
  rcases lt_trichotomy x 0 with hx | hx | hx
  · rw [rnd_of_neg hx, rnd_of_neg (show x / 2 < 0 by linarith),
      show -(x / 2) = (-x) / 2 by ring, rndPos_half (-x) (by linarith)]
    ring
  · subst hx
    simp [rnd_zero]
  · rw [rnd_of_pos hx, rnd_of_pos (show 0 < x / 2 by linarith), rndPos_half x hx]

theorem rnd_neg_eq (x : ℚ) : rnd (-x) = - rnd x := by
  rcases lt_trichotomy x 0 with hx | hx | hx
  · rw [rnd_of_neg hx, rnd_of_pos (show 0 < -x by linarith)]
    ring
  · subst hx
    simp [rnd_zero]
  · rw [rnd_of_pos hx, rnd_of_neg (show -x < 0 by linarith), neg_neg]

theorem rnd_mul_neg_half (x : ℚ) (hx : rnd x = x) :
    rnd (x * (-(1 / 2))) = x * (-(1 / 2)) := by
  rw [show x * (-(1 / 2)) = -(x / 2) by ring, rnd_neg_eq, rnd_half, hx]

theorem handleParallaxEffect_idem (scrollY : ℚ) (innerHeight : Int) (hero : Option Hero) :
    handleParallaxEffect scrollY innerHeight (handleParallaxEffect scrollY innerHeight hero)
      = handleParallaxEffect scrollY innerHeight hero := by
  cases hero with
  | none => rfl
  | some h =>
    by_cases hc : scrollY < (innerHeight : ℚ)
    · simp [handleParallaxEffect, hc]
    · simp [handleParallaxEffect, hc]

theorem updateProgressBar_idem (scrollY : ℚ) (scrollHeight innerHeight : Int)
    (bar : Option ProgressBar) :
    updateProgressBar scrollY scrollHeight innerHeight
        (updateProgressBar scrollY scrollHeight innerHeight bar)
      = updateProgressBar scrollY scrollHeight innerHeight bar := by
  cases bar <;> rfl

theorem triggerScrollAnimations_idem (innerHeight : ℚ) (els : List ScrollElem) :
    triggerScrollAnimations innerHeight (triggerScrollAnimations innerHeight els)
      = triggerScrollAnimations innerHeight els := by
  unfold triggerScrollAnimations
  rw [List.map_map]
  apply List.map_congr_left
  intro el _
  simp only [Function.comp]
  split <;> simp_all

/-- C14. Applying the four scroll updates (`updateHeaderStyle`, `updateBackToTopButton`,
`updateProgressBar`, `handleParallaxEffect`) a second time with the same offset changes
nothing, for every page state and every offset, and the same holds for the whole
`handleScroll`.  With a hero present, the transform written is `translateY` of the binary64
product of the offset and -0.5 when the offset is below `innerHeight`, and the hero is
left as it was otherwise; for an offset that is itself a binary64 value the product is exact,
offset times -0.5. -/
theorem scroll_updates_idempotent (cfg : Config) (offset : ℚ) (v : ScrollView) (hero : Hero) :
    scrollUpdates cfg offset (scrollUpdates cfg offset v) = scrollUpdates cfg offset v ∧
    handleScroll cfg offset (handleScroll cfg offset v) = handleScroll cfg offset v ∧
    (scrollUpdates cfg offset { v with hero := some hero }).hero
      = (if offset < (v.innerHeight : ℚ)
         then some { transform := HeroTransform.translateY (rnd (offset * (-(1 / 2)))) }
         else some hero) ∧
    (rnd offset = offset → offset < (v.innerHeight : ℚ) →
      (scrollUpdates cfg offset { v with hero := some hero }).hero
        = some { transform := HeroTransform.translateY (offset * (-(1 / 2))) }) ∧
    (¬ offset < (v.innerHeight : ℚ) →
      (scrollUpdates cfg offset { v with hero := some hero }).hero = some hero) := by
  have h1 : scrollUpdates cfg offset (scrollUpdates cfg offset v)
      = scrollUpdates cfg offset v := by
    simp only [scrollUpdates, handleParallaxEffect_idem, updateProgressBar_idem]
    simp [updateHeaderStyle, updateBackToTopButton]
  refine ⟨h1, ?_, ?_, ?_, ?_⟩
  · simp only [handleScroll]
    have h2 : ∀ (w : ScrollView) (els : List ScrollElem),
        scrollUpdates cfg offset { w with animateOnScroll := els }
          = { scrollUpdates cfg offset w with animateOnScroll := els } := by
      intro w els
      rfl
    have h3 : (scrollUpdates cfg offset v).innerHeight = v.innerHeight := rfl
    rw [h2, h1]
    simp only [h3, triggerScrollAnimations_idem]
  · by_cases hc : offset < (v.innerHeight : ℚ)
    · simp [scrollUpdates, handleParallaxEffect, hc]
    · simp [scrollUpdates, handleParallaxEffect, hc]
  · intro hr hc
    simp only [scrollUpdates, handleParallaxEffect, if_pos hc, rnd_mul_neg_half offset hr]
  · intro hc
    simp [scrollUpdates, handleParallaxEffect, hc]

/-- C14 at offset 150 in a viewport 600 high. -/
theorem scroll_updates_idempotent_witness :
    rnd 150 = 150 ∧ (150 : ℚ) < ((600 : Int) : ℚ) ∧
    (scrollUpdates config 150
      { header := { background := "", boxShadow := "", scrolled := false },
        backToTopBtn := { showClass := false },
        progressBar := none,
        hero := some { transform := HeroTransform.css "" },
        scrollHeight := 1600, innerHeight := 600, animateOnScroll := [] }).hero
      = some { transform := HeroTransform.translateY (150 * (-(1 / 2))) } :=
  ⟨by decide!, by norm_num,
    (scroll_updates_idempotent config 150
      { header := { background := "", boxShadow := "", scrolled := false },
        backToTopBtn := { showClass := false },
        progressBar := none,
        hero := none,
        scrollHeight := 1600, innerHeight := 600, animateOnScroll := [] }
      { transform := HeroTransform.css "" }).2.2.2.1 (by decide!) (by norm_num)⟩


/-! ## Teardown -/

/-- C13 (what the code does). After `bindEvents()` followed by `destroy()` the `scroll` and
`resize` listeners that `bindEvents` registered are still registered: `destroy` passes the
methods `this.handleScroll` and `this.handleResize` to `removeEventListener`, but what was
registered are throttle wrappers around bound copies, so nothing matches.  A later `scroll`
event still runs `handleScroll` and a later `resize` event still runs `handleResize`; only
the observer, the progress bar and the cursor are torn down. -/
theorem destroy_keeps_listeners (n : Nat) :
    (destroy (bindEvents (AppState.initial n))).windowListeners
      = (bindEvents (AppState.initial n)).windowListeners ∧
    (destroy (bindEvents (AppState.initial n))).windowListeners
      = [("scroll", Fn.throttled (Fn.bound Method.handleScroll n) 16 (n + 1)),
         ("resize", Fn.throttled (Fn.bound Method.handleResize (n + 2)) 250 (n + 3)),
         ("load", Fn.bound Method.handlePageLoad (n + 4)),
         ("error", Fn.bound Method.handleError (n + 5))] ∧
    dispatchWindow "scroll" (destroy (bindEvents (AppState.initial n)))
      = [Method.handleScroll] ∧
    dispatchWindow "resize" (destroy (bindEvents (AppState.initial n)))
      = [Method.handleResize] ∧
    (destroy (bindEvents (AppState.initial n))).scrollObserver = some false ∧
    (destroy (bindEvents (AppState.initial n))).progressBar = some false := by
  have hb : (bindEvents (AppState.initial n)).windowListeners
      = [("scroll", Fn.throttled (Fn.bound Method.handleScroll n) 16 (n + 1)),
         ("resize", Fn.throttled (Fn.bound Method.handleResize (n + 2)) 250 (n + 3)),
         ("load", Fn.bound Method.handlePageLoad (n + 4)),
         ("error", Fn.bound Method.handleError (n + 5))] := by
    simp [bindEvents, AppState.initial, windowAddEventListener]
  have hd : (destroy (bindEvents (AppState.initial n))).windowListeners
      = (bindEvents (AppState.initial n)).windowListeners := by
    simp only [destroy, hb, windowRemoveEventListener]
    rw [List.erase_of_not_mem (by simp), List.erase_of_not_mem (by simp)]
  refine ⟨hd, hd.trans hb, ?_, ?_, rfl, rfl⟩
  · simp [dispatchWindow, hd, hb, Fn.runs]
  · simp [dispatchWindow, hd, hb, Fn.runs]


/-! ## Scroll observer -/

theorem handleEntry_classes (s : ObserverState) (entry : IntersectionEntry) (i : Nat) :
    ((handleEntry s entry).elements[i]?).map (fun el => (el.serviceCard, el.portfolioItem))
      = (s.elements[i]?).map (fun el => (el.serviceCard, el.portfolioItem)) := by
  unfold handleEntry
  split
  · have h : ((modifyAt (fun el : ObservedElem => { el with animated := true }) entry.target
        s.elements)[i]?).map (fun el => (el.serviceCard, el.portfolioItem))
        = (s.elements[i]?).map (fun el => (el.serviceCard, el.portfolioItem)) := by
      rw [getElem?_modifyAt]
      split
      · cases s.elements[i]? <;> rfl
      · rfl
    simp only
    split <;> split <;> exact h
  · rfl

theorem handleEntry_count (s : ObserverState) (entry : IntersectionEntry) (i : Nat)
    (el : ObservedElem) (hel : s.elements[i]? = some el) (hc : el.serviceCard = true) :
    (handleEntry s entry).calls.count (RevealCall.animateServiceCard i)
      = s.calls.count (RevealCall.animateServiceCard i)
        + (if entry.isIntersecting && entry.target = i then 1 else 0) := by
  unfold handleEntry
  by_cases hi : entry.isIntersecting = true
  · simp only [hi, if_true, Bool.true_and]
    by_cases ht : entry.target = i
    · subst ht
      have hg : (modifyAt (fun el : ObservedElem => { el with animated := true }) entry.target
          s.elements).getD entry.target
            { serviceCard := false, portfolioItem := false, animated := false }
          = { el with animated := true } := by
        rw [List.getD_eq_getElem?_getD, getElem?_modifyAt, if_pos rfl, hel]
        rfl
      simp only [hg, hc, if_true, decide_True]
      split <;> simp [List.count_append]
    · simp only [ht, decide_False, if_false, Nat.add_zero, Bool.false_eq_true]
      split <;> split <;> simp [List.count_append, List.count_cons, ht]
  · simp [hi]

theorem observerCallback_count (entries : List IntersectionEntry) (s : ObserverState)
    (i : Nat) (el : ObservedElem) (hel : s.elements[i]? = some el)
    (hc : el.serviceCard = true) :
    (∃ el', (observerCallback entries s).elements[i]? = some el' ∧ el'.serviceCard = true) ∧
    (observerCallback entries s).calls.count (RevealCall.animateServiceCard i)
      = s.calls.count (RevealCall.animateServiceCard i)
        + (entries.filter (fun e => e.isIntersecting && e.target = i)).length := by
  induction entries generalizing s el with
  | nil => exact ⟨⟨el, hel, hc⟩, by simp [observerCallback]⟩
  | cons e es ih =>
    have hcl := handleEntry_classes s e i
    rw [hel] at hcl
    obtain ⟨el1, h1⟩ : ∃ el1, (handleEntry s e).elements[i]? = some el1 := by
      cases h : (handleEntry s e).elements[i]? with
      | none => rw [h] at hcl; simp at hcl
      | some x => exact ⟨x, rfl⟩
    have hc1 : el1.serviceCard = true := by
      rw [h1] at hcl
      simp only [Option.map_some', Option.some.injEq, Prod.mk.injEq] at hcl
      rw [hcl.1, hc]
    obtain ⟨a, b⟩ := ih (handleEntry s e) el1 h1 hc1
    refine ⟨a, ?_⟩
    simp only [observerCallback, List.foldl_cons] at b ⊢
    rw [b, handleEntry_count s e i el hel hc, List.filter_cons]
    split
    · simp; omega
    · simp

theorem runObserver_count (batches : List (List IntersectionEntry)) (s : ObserverState)
    (i : Nat) (el : ObservedElem) (hel : s.elements[i]? = some el)
    (hc : el.serviceCard = true) :
    (runObserver batches s).calls.count (RevealCall.animateServiceCard i)
      = s.calls.count (RevealCall.animateServiceCard i) + intersections i batches := by
  induction batches generalizing s el with
  | nil => simp [runObserver, intersections]
  | cons b bs ih =>
    obtain ⟨⟨el1, h1, hc1⟩, hcount⟩ := observerCallback_count b s i el hel hc
    have := ih (observerCallback b s) el1 h1 hc1
    simp only [runObserver, List.foldl_cons] at this ⊢
    rw [this, hcount]
    simp only [intersections, List.flatten_cons, List.filter_append, List.length_append]
    omega

/-- C11 (what the code does). For an observed element with class `service-card`, the
callback of `createScrollObserver` calls `animateServiceCard` on it once for every entry that
reports it as intersecting: the class `animated` is set but never tested, and the element
is never unobserved.  A card that enters the viewport, leaves it and enters again is
revealed twice. -/
theorem reveal_fires_per_intersection (elements : List ObservedElem) (i : Nat)
    (el : ObservedElem) (batches : List (List IntersectionEntry))
    (hel : elements[i]? = some el) (hc : el.serviceCard = true) :
    (runObserver batches (createScrollObserver elements)).calls.count
        (RevealCall.animateServiceCard i) = intersections i batches ∧
    (runObserver [[⟨0, true⟩], [⟨0, false⟩], [⟨0, true⟩]]
        (createScrollObserver [⟨true, false, false⟩])).calls
      = [RevealCall.animateServiceCard 0, RevealCall.animateServiceCard 0] ∧
    (runObserver [[⟨0, true⟩], [⟨0, false⟩], [⟨0, true⟩]]
        (createScrollObserver [⟨false, true, false⟩])).calls
      = [RevealCall.animatePortfolioItem 0, RevealCall.animatePortfolioItem 0] := by
  refine ⟨?_, by decide, by decide⟩
  have := runObserver_count batches (createScrollObserver elements) i el hel hc
  simpa [createScrollObserver] using this

/-- C11 at a single service card that enters the viewport, leaves it and enters again. -/
theorem reveal_fires_per_intersection_witness :
    ([⟨true, false, false⟩] : List ObservedElem)[0]? = some ⟨true, false, false⟩ ∧
    (runObserver [[⟨0, true⟩], [⟨0, false⟩], [⟨0, true⟩]]
        (createScrollObserver [⟨true, false, false⟩])).calls.count
        (RevealCall.animateServiceCard 0)
      = intersections 0 [[⟨0, true⟩], [⟨0, false⟩], [⟨0, true⟩]] :=
  ⟨rfl, (reveal_fires_per_intersection [⟨true, false, false⟩] 0 ⟨true, false, false⟩
    [[⟨0, true⟩], [⟨0, false⟩], [⟨0, true⟩]] rfl rfl).1⟩


/-! ## Typing effect: termination -/

theorem drain_typeWord_step (cfg : Config) (fuel now d : Nat) (page : TypingState) :
    drainFuel (runTyping cfg) (fuel + 1)
        { now := now, timers := [{ due := d, callback := TypingCallback.typeWord }],
          page := page }
      = ((drainFuel (runTyping cfg) fuel
            (typeWord cfg { now := max now d, timers := [], page := page })).1,
         TypingCallback.typeWord ::
          (drainFuel (runTyping cfg) fuel
            (typeWord cfg { now := max now d, timers := [], page := page })).2) := by
  simp only [drainFuel, runTyping]

theorem typeWord_space (cfg : Config) (now : Nat) (text : List Char) (border : String)
    (ws : List (List Char)) (i j : Nat) (hi : i < ws.length)
    (hj : ¬ j < (ws.getD i []).length) :
    typeWord cfg { now := now, timers := [],
                   page := { heroTitle := { textContent := text, borderRight := border },
                             words := ws, wordIndex := i, charIndex := j } }
      = { now := now,
          timers := [{ due := now + cfg.typingSpeed * 2, callback := TypingCallback.typeWord }],
          page := { heroTitle := { textContent := text ++ [' '], borderRight := border },
                    words := ws, wordIndex := i + 1, charIndex := 0 } } := by
  simp only [typeWord, hi, hj, if_true, if_false, setTimeout, insertTimer]

theorem typeWord_done (cfg : Config) (now : Nat) (text : List Char) (border : String)
    (ws : List (List Char)) (i j : Nat) (hi : ¬ i < ws.length) :
    typeWord cfg { now := now, timers := [],
                   page := { heroTitle := { textContent := text, borderRight := border },
                             words := ws, wordIndex := i, charIndex := j } }
      = { now := now,
          timers := [{ due := now + 1000, callback := TypingCallback.removeCursor }],
          page := { heroTitle := { textContent := text, borderRight := border },
                    words := ws, wordIndex := i, charIndex := j } } := by
  simp only [typeWord, hi, if_false, setTimeout, insertTimer]

theorem remainingSteps_char (ws : List (List Char)) (i j : Nat) (hi : i < ws.length)
    (hj : j < (ws.getD i []).length) :
    remainingSteps ws i j = remainingSteps ws i (j + 1) + 1 ∧
    remainingText ws i j = ((ws.getD i []).drop j).take 1 ++ remainingText ws i (j + 1) := by
  have hg : ws.getD i [] = ws[i] := by
    rw [List.getD_eq_getElem?_getD, List.getElem?_eq_getElem hi]; rfl
  rw [hg] at hj ⊢
  simp only [remainingSteps, remainingText, List.drop_eq_getElem_cons hi]
  constructor
  · omega
  · have : List.drop j ws[i] = List.take 1 (List.drop j ws[i]) ++ List.drop (j + 1) ws[i] := by
      rw [← List.drop_drop, List.take_append_drop]
    rw [List.append_assoc, List.append_assoc, ← List.append_assoc (List.take 1 _), ← this]

theorem remainingSteps_space (ws : List (List Char)) (i j : Nat) (hi : i < ws.length)
    (hj : ¬ j < (ws.getD i []).length) :
    remainingSteps ws i j = remainingSteps ws (i + 1) 0 + 1 ∧
    remainingText ws i j = [' '] ++ remainingText ws (i + 1) 0 := by
  have hg : ws.getD i [] = ws[i] := by
    rw [List.getD_eq_getElem?_getD, List.getElem?_eq_getElem hi]; rfl
  rw [hg] at hj
  have hd : List.drop j ws[i] = [] := List.drop_eq_nil_of_le (by omega)
  simp only [remainingSteps, remainingText, List.drop_eq_getElem_cons hi, hd, List.nil_append]
  cases hrest : List.drop (i + 1) ws with
  | nil => simp; omega
  | cons w rest =>
    simp only [List.map_cons, List.sum_cons, List.flatten_cons, List.drop_zero,
      Nat.sub_zero]
    constructor
    · omega
    · simp

theorem drain_no_timers {σ α : Type} (run : α → EventLoop σ α → EventLoop σ α) (fuel now : Nat)
    (page : σ) :
    drainFuel run fuel { now := now, timers := [], page := page }
      = ({ now := now, timers := [], page := page }, []) := by
  cases fuel <;> simp only [drainFuel]

theorem drain_end (cfg : Config) (extra now d : Nat) (text : List Char) (border : String)
    (ws : List (List Char)) (i j : Nat) (hi : ¬ i < ws.length) :
    (drainFuel (runTyping cfg) (2 + extra)
        { now := now, timers := [{ due := d, callback := TypingCallback.typeWord }],
          page := { heroTitle := { textContent := text, borderRight := border },
                    words := ws, wordIndex := i, charIndex := j } }).1.timers = [] ∧
    (drainFuel (runTyping cfg) (2 + extra)
        { now := now, timers := [{ due := d, callback := TypingCallback.typeWord }],
          page := { heroTitle := { textContent := text, borderRight := border },
                    words := ws, wordIndex := i, charIndex := j } }).1.page.heroTitle
      = { textContent := text, borderRight := "none" } ∧
    (drainFuel (runTyping cfg) (2 + extra)
        { now := now, timers := [{ due := d, callback := TypingCallback.typeWord }],
          page := { heroTitle := { textContent := text, borderRight := border },
                    words := ws, wordIndex := i, charIndex := j } }).2
      = [TypingCallback.typeWord, TypingCallback.removeCursor] := by
  rw [show 2 + extra = (extra + 1) + 1 by omega, drain_typeWord_step,
    typeWord_done cfg _ _ _ ws i j hi]
  simp only [drainFuel, runTyping, drain_no_timers]
  exact ⟨trivial, trivial, trivial⟩

theorem typing_drain (cfg : Config) (ws : List (List Char)) (border : String) (extra : Nat) :
    ∀ (n i j d now : Nat) (text : List Char), remainingSteps ws i j = n →
      (drainFuel (runTyping cfg) (n + 2 + extra)
          { now := now, timers := [{ due := d, callback := TypingCallback.typeWord }],
            page := { heroTitle := { textContent := text, borderRight := border },
                      words := ws, wordIndex := i, charIndex := j } }).1.timers = [] ∧
      (drainFuel (runTyping cfg) (n + 2 + extra)
          { now := now, timers := [{ due := d, callback := TypingCallback.typeWord }],
            page := { heroTitle := { textContent := text, borderRight := border },
                      words := ws, wordIndex := i, charIndex := j } }).1.page.heroTitle
        = { textContent := text ++ remainingText ws i j, borderRight := "none" } ∧
      (drainFuel (runTyping cfg) (n + 2 + extra)
          { now := now, timers := [{ due := d, callback := TypingCallback.typeWord }],
            page := { heroTitle := { textContent := text, borderRight := border },
                      words := ws, wordIndex := i, charIndex := j } }).2
        = List.replicate (n + 1) TypingCallback.typeWord ++ [TypingCallback.removeCursor] := by
  intro n
  induction n with
  | zero =>
    intro i j d now text hn
    have hi : ¬ i < ws.length := by
      intro hi
      simp only [remainingSteps, List.drop_eq_getElem_cons hi] at hn
      omega
    have ht : remainingText ws i j = [] := by
      simp only [remainingText, List.drop_eq_nil_of_le (not_lt.mp hi)]
    rw [ht, List.append_nil, show 0 + 2 + extra = 2 + extra by omega]
    exact drain_end cfg extra now d text border ws i j hi
  | succ n ih =>
    intro i j d now text hn
    have hi : i < ws.length := by
      by_contra hi
      simp only [remainingSteps, List.drop_eq_nil_of_le (not_lt.mp hi)] at hn
      omega
    rw [show n + 1 + 2 + extra = (n + 2 + extra) + 1 by omega, drain_typeWord_step]
    by_cases hj : j < (ws.getD i []).length
    · obtain ⟨s1, s2⟩ := remainingSteps_char ws i j hi hj
      rw [typeWord_char cfg _ _ _ ws i j hi hj]
      obtain ⟨a, b, c⟩ := ih i (j + 1) (max now d + cfg.typingSpeed) (max now d)
        (text ++ ((ws.getD i []).drop j).take 1) (by omega)
      refine ⟨a, ?_, ?_⟩
      · rw [b, s2, List.append_assoc]
      · show TypingCallback.typeWord :: _ = _
        rw [c]
        rfl
    · obtain ⟨s1, s2⟩ := remainingSteps_space ws i j hi hj
      rw [typeWord_space cfg _ _ _ ws i j hi hj]
      obtain ⟨a, b, c⟩ := ih (i + 1) 0 (max now d + cfg.typingSpeed * 2) (max now d)
        (text ++ [' ']) (by omega)
      refine ⟨a, ?_, ?_⟩
      · rw [b, s2, List.append_assoc]
      · show TypingCallback.typeWord :: _ = _
        rw [c]
        rfl

theorem split_flatten (sep : Char) (s : List Char) :
    ((split sep s).map (fun v => v ++ [sep])).flatten = s ++ [sep] := by
  induction s with
  | nil => simp [split]
  | cons c cs ih =>
    unfold split
    split
    · rename_i h
      subst h
      simp only [List.map_cons, List.flatten_cons, List.nil_append, ih]
      rfl
    · split
      · rename_i h
        exact absurd h (split_ne_nil sep cs)
      · rename_i w ws h
        rw [h] at ih
        simp only [List.map_cons, List.flatten_cons] at ih ⊢
        rw [List.cons_append, List.cons_append, ih, List.cons_append]

theorem split_lengths (sep : Char) (s : List Char) :
    ((split sep s).map (fun v => v.length + 1)).sum
      = (s.filter (fun c => decide (c ≠ sep))).length + (split sep s).length := by
  induction s with
  | nil => simp [split]
  | cons c cs ih =>
    unfold split
    split
    · rename_i h
      subst h
      simp only [List.map_cons, List.sum_cons, List.length_nil, List.length_cons, ih]
      simp
      omega
    · rename_i hne
      split
      · rename_i h
        exact absurd h (split_ne_nil sep cs)
      · rename_i w ws h
        rw [h] at ih
        simp only [List.map_cons, List.sum_cons, List.length_cons] at ih ⊢
        rw [List.filter_cons_of_pos (by simpa using hne)]
        simp only [List.length_cons]
        omega

theorem remaining_from_start (ws : List (List Char)) :
    remainingSteps ws 0 0 = (ws.map (fun v => v.length + 1)).sum ∧
    remainingText ws 0 0 = (ws.map (fun v => v ++ [' '])).flatten := by
  cases ws with
  | nil => exact ⟨rfl, rfl⟩
  | cons w rest =>
    simp only [remainingSteps, remainingText, List.drop_zero, Nat.sub_zero, List.map_cons,
      List.sum_cons, List.flatten_cons]
    exact ⟨trivial, trivial⟩

/-- C15. For every title text `s` (empty, or with leading, trailing or repeated spaces
alike) the chain of `typeWord` steps ends: exactly (number of non-space characters of `s`)
+ (number of words of `s.split(' ')`) + 1 `typeWord` steps run, followed by the one cursor
removal, and then no timer is pending.  The final text is `s` followed by one extra
space (every word of `s.split(' ')` followed by a space), not `s` itself, and the cursor
border is removed.  For the empty title that is 2 steps and the text " "; for "Hello World"
13 steps and "Hello World ". -/
theorem typing_terminates (cfg : Config) (title : HeroTitle) (t0 : Nat) :
    (∃ final : TypingLoop,
      typingRun cfg title t0
        = some (final,
            List.replicate
              ((title.textContent.filter (fun c => decide (c ≠ ' '))).length
                + (split ' ' title.textContent).length + 1)
              TypingCallback.typeWord ++ [TypingCallback.removeCursor]) ∧
      final.timers = [] ∧
      final.page.heroTitle
        = { textContent := title.textContent ++ [' '], borderRight := "none" }) ∧
    (typingRun config { textContent := [], borderRight := "" } 0).map
        (fun r => (r.1.page.heroTitle.textContent, r.2))
      = some ([' '], [TypingCallback.typeWord, TypingCallback.typeWord,
          TypingCallback.removeCursor]) ∧
    (typingRun config { textContent := "Hello World".toList, borderRight := "" } 0).map
        (fun r => (r.1.page.heroTitle.textContent, r.2.length))
      = some ("Hello World ".toList, 14) ∧
    (typingRun config { textContent := " a  b ".toList, borderRight := "" } 0).map
        (fun r => (r.1.page.heroTitle.textContent, r.2.length))
      = some (" a  b  ".toList, 9) := by
  refine ⟨?_, by decide, by decide, by decide⟩
  obtain ⟨r1, r2⟩ := remaining_from_start (split ' ' title.textContent)
  have hN : remainingSteps (split ' ' title.textContent) 0 0
      = (title.textContent.filter (fun c => decide (c ≠ ' '))).length
        + (split ' ' title.textContent).length := r1.trans (split_lengths ' ' _)
  obtain ⟨a, b, c⟩ := typing_drain cfg (split ' ' title.textContent) "2px solid white" 0
    _ 0 0 (t0 + 2000) t0 [] hN
  rw [r2, split_flatten, List.nil_append] at b
  simp only [Nat.add_zero] at a b c
  have hfuel : typingFuel
      { heroTitle := { textContent := [], borderRight := "2px solid white" },
        words := split ' ' title.textContent, wordIndex := 0, charIndex := 0 }
      = (title.textContent.filter (fun c => decide (c ≠ ' '))).length
        + (split ' ' title.textContent).length + 2 := by
    simp only [typingFuel, List.drop_zero, split_lengths]
  refine ⟨(drainFuel (runTyping cfg)
      ((title.textContent.filter (fun c => decide (c ≠ ' '))).length
        + (split ' ' title.textContent).length + 2)
      { now := t0, timers := [{ due := t0 + 2000, callback := TypingCallback.typeWord }],
        page := { heroTitle := { textContent := [], borderRight := "2px solid white" },
                  words := split ' ' title.textContent, wordIndex := 0,
                  charIndex := 0 } }).1, ?_, a, b⟩
  simp only [typingRun, initTypingEffect, Option.map_some', setTimeout, insertTimer,
    Option.some.injEq, hfuel]
  exact Prod.ext rfl c

/-! ## Throttle -/

theorem advanceThrottle_spec {α : Type} (limit T : Nat) (l : ThrottleLoop α)
    (inv : ThrottleInv limit l) :
    ThrottleInv limit (advanceThrottle T l) ∧
    (advanceThrottle T l).now = max l.now T ∧
    (advanceThrottle T l).page.invocations = l.page.invocations := by
  obtain ⟨now, timers, ⟨flag, invs⟩⟩ := l
  cases flag with
  | false =>
    obtain ⟨ht, hf⟩ := inv.free rfl
    simp only at ht hf
    subst ht
    have e : advanceThrottle T
        ({ now := now, timers := [], page := { inThrottle := false, invocations := invs } } :
          ThrottleLoop α)
        = { now := max now T, timers := [],
            page := { inThrottle := false, invocations := invs } } := by
      simp only [advanceThrottle, List.length_nil, advanceFuel]
    rw [e]
    refine ⟨⟨fun h => Bool.noConfusion h, ?_, inv.apart⟩, rfl, rfl⟩
    intro _
    refine ⟨rfl, ?_⟩
    intro i hi
    have := hf i hi
    have := le_max_left now T
    simp only
    omega
  | true =>
    obtain ⟨d, ht, hd⟩ := inv.throttled rfl
    simp only at ht hd
    subst ht
    by_cases hT : d ≤ T
    · have e : advanceThrottle T
          ({ now := now, timers := [{ due := d, callback := ThrottleCallback.release }],
             page := { inThrottle := true, invocations := invs } } : ThrottleLoop α)
          = { now := max (max now d) T, timers := [],
              page := { inThrottle := false, invocations := invs } } := by
        simp only [advanceThrottle, List.length_singleton, advanceFuel, hT, if_true,
          runThrottle]
      rw [e]
      refine ⟨⟨fun h => Bool.noConfusion h, ?_, inv.apart⟩, ?_, rfl⟩
      · intro _
        refine ⟨rfl, ?_⟩
        intro i hi
        have := hd i hi
        have h1 := le_max_right now d
        have h2 := le_max_left (max now d) T
        simp only
        omega
      · simp only
        rw [max_assoc, max_eq_right hT]
    · have e : advanceThrottle T
          ({ now := now, timers := [{ due := d, callback := ThrottleCallback.release }],
             page := { inThrottle := true, invocations := invs } } : ThrottleLoop α)
          = { now := max now T,
              timers := [{ due := d, callback := ThrottleCallback.release }],
              page := { inThrottle := true, invocations := invs } } := by
        simp only [advanceThrottle, List.length_singleton, advanceFuel, hT, if_false]
      rw [e]
      refine ⟨⟨?_, fun h => Bool.noConfusion h, inv.apart⟩, rfl, rfl⟩
      intro _
      exact ⟨d, rfl, hd⟩

theorem throttledCall_plain {α : Type} (func : ThrottledFunc α) (limit stack : Nat)
    (args : α) (l : ThrottleLoop α) (hp : func.plain) (hs : 0 < stack) :
    throttledCall func limit stack args l
      = if !l.page.inThrottle then
          setTimeout ThrottleCallback.release limit
            { l with page := { inThrottle := true,
                               invocations := l.page.invocations ++ [(l.now, args)] } }
        else l := by
  obtain ⟨k, rfl⟩ : ∃ k, stack = k + 1 := ⟨stack - 1, by omega⟩
  unfold throttledCall throttledCallFuel
  simp only [hp _ _, List.foldl_nil, Bool.or_self, Bool.false_eq_true, if_false]
  split <;> rfl

theorem throttledCall_spec {α : Type} (func : ThrottledFunc α) (limit stack : Nat) (args : α)
    (l : ThrottleLoop α) (hp : func.plain) (hs : 0 < stack) (inv : ThrottleInv limit l) :
    ThrottleInv limit (throttledCall func limit stack args l) ∧
    (throttledCall func limit stack args l).now = l.now ∧
    (throttledCall func limit stack args l).page.invocations
      = l.page.invocations ++ (if l.page.inThrottle then [] else [(l.now, args)]) := by
  obtain ⟨now, timers, ⟨flag, invs⟩⟩ := l
  cases flag with
  | true =>
    have e : throttledCall func limit stack args
        ({ now := now, timers := timers, page := { inThrottle := true, invocations := invs } } :
          ThrottleLoop α)
        = { now := now, timers := timers,
            page := { inThrottle := true, invocations := invs } } := by
      rw [throttledCall_plain func limit stack args _ hp hs]
      simp only [Bool.not_true, Bool.false_eq_true, if_false]
    rw [e]
    exact ⟨inv, rfl, by simp⟩
  | false =>
    obtain ⟨ht, hf⟩ := inv.free rfl
    simp only at ht hf
    subst ht
    have e : throttledCall func limit stack args
        ({ now := now, timers := [], page := { inThrottle := false, invocations := invs } } :
          ThrottleLoop α)
        = { now := now, timers := [{ due := now + limit, callback := ThrottleCallback.release }],
            page := { inThrottle := true, invocations := invs ++ [(now, args)] } } := by
      rw [throttledCall_plain func limit stack args _ hp hs]
      simp only [Bool.not_false, if_true, setTimeout, insertTimer]
    rw [e]
    refine ⟨⟨?_, fun h => Bool.noConfusion h, ?_⟩, rfl, by simp⟩
    · intro _
      refine ⟨now + limit, rfl, ?_⟩
      intro i hi
      rcases List.mem_append.mp hi with hi | hi
      · have := hf i hi
        omega
      · simp only [List.mem_singleton] at hi
        subst hi
        exact le_refl _
    · rw [List.pairwise_append]
      refine ⟨inv.apart, List.pairwise_singleton _ _, ?_⟩
      intro a ha b hb
      simp only [List.mem_singleton] at hb
      subst hb
      exact hf a ha

theorem throttle_inv (α : Type) (limit t : Nat) : ThrottleInv limit (throttle α t) := by
  refine ⟨?_, ?_, List.Pairwise.nil⟩
  · intro h; simp [throttle] at h
  · intro _
    refine ⟨rfl, ?_⟩
    intro i hi
    simp [throttle] at hi

theorem runThrottleCalls_spec {α : Type} (func : ThrottledFunc α) (limit stack : Nat)
    (hp : func.plain) (hs : 0 < stack) (cs : List (ThrottleCall α))
    (l : ThrottleLoop α) (inv : ThrottleInv limit l) :
    ThrottleInv limit (runThrottleCalls func limit stack cs l) ∧
    ∃ added, (runThrottleCalls func limit stack cs l).page.invocations
        = l.page.invocations ++ added ∧
      added.Sublist (throttleCallTimes l.now cs) := by
  induction cs generalizing l with
  | nil => exact ⟨inv, [], by simp [runThrottleCalls], List.Sublist.refl _⟩
  | cons c cs ih =>
    obtain ⟨a1, a2, a3⟩ := advanceThrottle_spec limit (l.now + c.gap) l inv
    rw [max_eq_right (Nat.le_add_right _ _)] at a2
    obtain ⟨b1, b2, b3⟩ := throttledCall_spec func limit stack c.args _ hp hs a1
    obtain ⟨i1, added, i2, i3⟩ := ih _ b1
    rw [b2, a2] at i3
    rw [b3, a3, a2] at i2
    refine ⟨i1, (if (advanceThrottle (l.now + c.gap) l).page.inThrottle = true then []
        else [(l.now + c.gap, c.args)]) ++ added,
      by simp only [runThrottleCalls]; rw [i2, List.append_assoc], ?_⟩
    simp only [throttleCallTimes]
    split
    · simpa using i3.cons (l.now + c.gap, c.args)
    · simpa using i3.cons₂ (l.now + c.gap, c.args)

/-- C12 as stated fails, since it is claimed for every function.  With limit 16 and a
function that throws whenever it is invoked, calls at 0, 1 and 2 ms invoke it three times,
1 ms apart: `inThrottle` is set only after the function has returned.  With a function that
returns normally but, on its first invocation, calls the throttled wrapper itself, the call
at 0 ms invokes it twice at 0 ms. -/
theorem throttle_not_for_every_function :
    (runThrottleCalls (fun _ _ => { reenters := [], throws := true }) 16 8
        [⟨0, 1⟩, ⟨1, 2⟩, ⟨1, 3⟩] (throttle Nat 0)).page.invocations
      = [(0, 1), (1, 2), (2, 3)] ∧
    ¬ (runThrottleCalls (fun _ _ => { reenters := [], throws := true }) 16 8
        [⟨0, 1⟩, ⟨1, 2⟩, ⟨1, 3⟩] (throttle Nat 0)).page.invocations.Pairwise
        (fun a b => a.1 + 16 ≤ b.1) ∧
    (runThrottleCalls (fun k _ => { reenters := if k = 0 then [7] else [], throws := false })
        16 8 [⟨0, 1⟩, ⟨1, 2⟩, ⟨20, 3⟩] (throttle Nat 0)).page.invocations
      = [(0, 1), (0, 7), (21, 3)] ∧
    ¬ (runThrottleCalls (fun k _ => { reenters := if k = 0 then [7] else [], throws := false })
        16 8 [⟨0, 1⟩, ⟨1, 2⟩, ⟨20, 3⟩] (throttle Nat 0)).page.invocations.Pairwise
        (fun a b => a.1 + 16 ≤ b.1) := by
  decide

/-- C12, amended. For every function that returns normally whenever it is invoked and
never calls the throttled wrapper itself, every limit and every sequence of calls of the
function returned by `throttle(func, limit)`, at whatever times and with whatever arguments:
the first call invokes `func` at once; every invocation of `func` happens at the time of one
of the calls and with its arguments, in call order, so a call that arrives while throttled
is dropped and is not made up for later, also not when more time passes after the last call;
and any two invocations are at least `limit` ms apart.  With limit 16 (the scroll handler),
calls at 0, 5, 10, 20 and 30 ms invoke the handler at 0 and at 20 ms only. -/
theorem throttle_rate_limit {α : Type} (func : ThrottledFunc α) (limit stack t0 : Nat)
    (c : ThrottleCall α) (cs : List (ThrottleCall α)) (wait : Nat)
    (hp : func.plain) (hs : 0 < stack) :
    (runThrottleCalls func limit stack (c :: cs) (throttle α t0)).page.invocations.head?
      = some (t0 + c.gap, c.args) ∧
    (runThrottleCalls func limit stack (c :: cs) (throttle α t0)).page.invocations.Sublist
      (throttleCallTimes t0 (c :: cs)) ∧
    (runThrottleCalls func limit stack (c :: cs) (throttle α t0)).page.invocations.Pairwise
      (fun a b => a.1 + limit ≤ b.1) ∧
    (advanceThrottle
        ((runThrottleCalls func limit stack (c :: cs) (throttle α t0)).now + wait)
        (runThrottleCalls func limit stack (c :: cs) (throttle α t0))).page.invocations
      = (runThrottleCalls func limit stack (c :: cs) (throttle α t0)).page.invocations ∧
    (runThrottleCalls (fun _ _ => { reenters := [], throws := false }) 16 8
        [⟨0, 1⟩, ⟨5, 2⟩, ⟨5, 3⟩, ⟨10, 4⟩, ⟨10, 5⟩]
        (throttle Nat 0)).page.invocations = [(0, 1), (20, 4)] := by
  obtain ⟨inv, added, hadd, hsub⟩ :=
    runThrottleCalls_spec func limit stack hp hs (c :: cs) (throttle α t0)
      (throttle_inv α limit t0)
  have h0 : (throttle α t0).page.invocations = [] := rfl
  have hn0 : (throttle α t0).now = t0 := rfl
  rw [h0, List.nil_append] at hadd
  rw [hn0] at hsub
  refine ⟨?_, by rw [hadd]; exact hsub, inv.apart,
    (advanceThrottle_spec limit _ _ inv).2.2, by decide⟩
  have inv0 := (advanceThrottle_spec limit (t0 + c.gap) _ (throttle_inv α limit t0))
  have e1 : advanceThrottle (t0 + c.gap) (throttle α t0)
      = { now := max t0 (t0 + c.gap), timers := [],
          page := { inThrottle := false, invocations := [] } } := by
    simp only [advanceThrottle, throttle, List.length_nil, advanceFuel]
  obtain ⟨b1, _, b3⟩ := throttledCall_spec func limit stack c.args _ hp hs inv0.1
  obtain ⟨_, added', hadd', _⟩ := runThrottleCalls_spec func limit stack hp hs cs _ b1
  have hrun : runThrottleCalls func limit stack (c :: cs) (throttle α t0)
      = runThrottleCalls func limit stack cs (throttledCall func limit stack c.args
          (advanceThrottle (t0 + c.gap) (throttle α t0))) := rfl
  rw [hrun, hadd', b3, e1]
  simp only [Bool.false_eq_true, if_false, List.nil_append, List.singleton_append,
    List.head?_cons, max_eq_right (Nat.le_add_right t0 c.gap)]

/-- C12, amended, at a function that only returns, limit 16, and calls at 3, 8 and 30 ms. -/
theorem throttle_rate_limit_witness :
    ThrottledFunc.plain (fun (_ : Nat) (_ : Nat) => ({ reenters := [], throws := false } :
      FuncRun Nat)) ∧
    0 < 8 ∧
    (runThrottleCalls (fun _ _ => { reenters := [], throws := false }) 16 8
        (⟨3, 1⟩ :: [⟨5, 2⟩, ⟨22, 3⟩]) (throttle Nat 0)).page.invocations.Pairwise
      (fun a b => a.1 + 16 ≤ b.1) :=
  ⟨fun _ _ => rfl, by decide,
    (throttle_rate_limit (fun _ _ => { reenters := [], throws := false }) 16 8 0 ⟨3, 1⟩
      [⟨5, 2⟩, ⟨22, 3⟩] 0 (fun _ _ => rfl) (by decide)).2.2.1⟩

end CreativeApp
